import Mathlib

/-!
# Verification of `coverage.go` (go-118-fuzz-build)

A shallow embedding of the seed translator in `src/coverage/coverage.go`:

* the signature extractor (`Walker.Visit`, `BodyWalker.Visit`, `addArgs`, `addArg`,
  `getArrayType`, `getFuzzArgs`) over a fragment of the `go/ast` syntax tree;
* the encoder (`libFuzzerSeedToGoSeed`) over an arbitrary byte cursor, the external
  `fuzz.Consumer` of go-fuzz-headers, which is a parameter of the development;
* the entry point `ConvertLibfuzzerSeedToGoSeed`.

Conventions.  A Go `string` and a Go `[]byte` are both finite sequences of bytes and are
modelled by `List Nat`.  A Go `panic` is modelled by an `Except Panic _` result; the state
that the panicking call leaves behind (the cursor, standard output) is returned next to it.
-/

namespace Coverage

/-! ## Go strings -/

/-- A Go string: a sequence of bytes. -/
abbrev GoString := List Nat

/-- UTF-8 encoding of an integer code point, as performed by the Go conversion
`string(r)` for a rune `r`: values that are not valid code points (negative, above
U+10FFFF, or surrogates) are encoded as U+FFFD. -/
def utf8EncodeRune (r : Int) : GoString :=
  if r < 0 then [0xEF, 0xBF, 0xBD]
  else
    let n := r.toNat
    if n < 0x80 then [n]
    else if n < 0x800 then [0xC0 + n / 64, 0x80 + n % 64]
    else if 0xD800 ≤ n ∧ n ≤ 0xDFFF then [0xEF, 0xBF, 0xBD]
    else if n < 0x10000 then [0xE0 + n / 4096, 0x80 + n / 64 % 64, 0x80 + n % 64]
    else if n ≤ 0x10FFFF then
      [0xF0 + n / 262144, 0x80 + n / 4096 % 64, 0x80 + n / 64 % 64, 0x80 + n % 64]
    else [0xEF, 0xBF, 0xBD]

/-- The Go conversion `string(rs)` of a slice of runes: the UTF-8 encodings of the runes,
one after the other. -/
def runesToString (rs : List Int) : GoString :=
  rs.flatMap utf8EncodeRune

/-- The bytes of a string literal of the source text. -/
def lit (s : String) : GoString :=
  s.toList.flatMap fun ch => utf8EncodeRune ch.toNat

/-- Decimal rendering of an integer, `strconv.Itoa`. -/
def Itoa (i : Int) : GoString := lit (toString i)

/-- Decimal rendering of an unsigned integer, the verb `%d`. -/
def fmtUint (n : Nat) : GoString := lit (toString n)

/-- Rendering of a boolean, the verb `%t`. -/
def fmtBool (v : Bool) : GoString := if v then lit "true" else lit "false"

/-- The verb `%f` of package `fmt`, for both float widths.  Floating-point values are
carried as their IEEE-754 bit patterns and their rendering is left to the host. -/
structure FloatFmt where
  /-- Rendering `fmt.Sprintf("%f", x)` of a `float32` with bit pattern `x`. -/
  float32 : Nat → GoString
  /-- Rendering `fmt.Sprintf("%f", x)` of a `float64` with bit pattern `x`. -/
  float64 : Nat → GoString

/-! ## Panics -/

/-- The value carried by a Go panic. -/
inductive Panic where
  /-- The call `panic(err)` with an error value. -/
  | error (err : String)
  /-- The call `panic("...")` with a message. -/
  | message (msg : String)
  /-- A run-time panic: failed type assertion, index out of range, nil dereference. -/
  | runtime (msg : String)
  deriving DecidableEq, Repr

deriving instance DecidableEq for Except

/-! ## The byte cursor `fuzz.Consumer` -/

/-- The operations of `fuzz.Consumer` (go-fuzz-headers) that the encoder calls, over a
cursor state `σ`.  Each operation returns a value or an error, and the cursor state it
leaves. -/
structure Consumer (σ : Type) where
  /-- The constructor `fuzz.NewConsumer(testcase)`. -/
  NewConsumer : List Nat → σ
  GetBytes : σ → Except String (List Nat) × σ
  GetString : σ → Except String GoString × σ
  GetInt : σ → Except String Int × σ
  GetUint16 : σ → Except String Nat × σ
  GetUint32 : σ → Except String Nat × σ
  GetUint64 : σ → Except String Nat × σ
  /-- The operation `GetRune`, which returns a slice of runes. -/
  GetRune : σ → Except String (List Int) × σ
  GetFloat32 : σ → Except String Nat × σ
  GetFloat64 : σ → Except String Nat × σ
  GetBool : σ → Except String Bool × σ

/-! ## The encoder -/

/-- The statement `if argNumber != len(args)-1 { b.WriteString("\n") }` closing every
case of the encoder; `n` is `len(args)`, which is positive inside the loop. -/
def writeSep (b : GoString) (argNumber n : Nat) : GoString :=
  if argNumber ≠ n - 1 then b ++ lit "\n" else b

/-- One iteration of the loop body of `libFuzzerSeedToGoSeed` after the `Println`: the
`switch arg` statement, run on the builder contents `b` and the cursor state `s`, with
`n = len(args)`.  Returns the cursor state left and the new builder contents, or the
panic raised. -/
def switchArg {σ : Type} (c : Consumer σ) (ff : FloatFmt) (n argNumber : Nat)
    (arg : String) (b : GoString) (s : σ) : σ × Except Panic GoString :=
  match arg with
  | "[]uint8" | "[]byte" =>
    match c.GetBytes s with
    | (.error err, s') => (s', .error (.error err))
    | (.ok randBytes, s') =>
      (s', .ok (writeSep (b ++ (lit "[]byte(\"" ++ randBytes ++ lit "\")")) argNumber n))
  | "string" =>
    match c.GetString s with
    | (.error err, s') => (s', .error (.error err))
    | (.ok str, s') =>
      (s', .ok (writeSep (b ++ (lit "string(\"" ++ str ++ lit "\")")) argNumber n))
  | "int" =>
    match c.GetInt s with
    | (.error err, s') => (s', .error (.error err))
    | (.ok randInt, s') =>
      (s', .ok (writeSep (b ++ (lit "int(" ++ Itoa randInt ++ lit ")")) argNumber n))
  | "int8" =>
    match c.GetInt s with
    | (.error err, s') => (s', .error (.error err))
    | (.ok randInt, s') =>
      (s', .ok (writeSep (b ++ (lit "int8(" ++ Itoa randInt ++ lit ")")) argNumber n))
  | "int16" =>
    match c.GetInt s with
    | (.error err, s') => (s', .error (.error err))
    | (.ok randInt, s') =>
      (s', .ok (writeSep (b ++ (lit "int16(" ++ Itoa randInt ++ lit ")")) argNumber n))
  | "int32" =>
    match c.GetInt s with
    | (.error err, s') => (s', .error (.error err))
    | (.ok randInt, s') =>
      (s', .ok (writeSep (b ++ (lit "int32(" ++ Itoa randInt ++ lit ")")) argNumber n))
  | "int64" =>
    match c.GetInt s with
    | (.error err, s') => (s', .error (.error err))
    | (.ok randInt, s') =>
      (s', .ok (writeSep (b ++ (lit "int64(" ++ Itoa randInt ++ lit ")")) argNumber n))
  | "uint" =>
    match c.GetInt s with
    | (.error err, s') => (s', .error (.error err))
    | (.ok randInt, s') =>
      (s', .ok (writeSep (b ++ (lit "uint(" ++ Itoa randInt ++ lit ")")) argNumber n))
  | "uint8" =>
    match c.GetInt s with
    | (.error err, s') => (s', .error (.error err))
    | (.ok randInt, s') =>
      (s', .ok (writeSep (b ++ (lit "uint8(" ++ Itoa randInt ++ lit ")")) argNumber n))
  | "uint16" =>
    match c.GetUint16 s with
    | (.error err, s') => (s', .error (.error err))
    | (.ok randInt, s') =>
      (s', .ok (writeSep (b ++ (lit "uint16(" ++ fmtUint randInt ++ lit ")")) argNumber n))
  | "uint32" =>
    match c.GetUint32 s with
    | (.error err, s') => (s', .error (.error err))
    | (.ok randInt, s') =>
      (s', .ok (writeSep (b ++ (lit "uint32(" ++ fmtUint randInt ++ lit ")")) argNumber n))
  | "uint64" =>
    match c.GetUint64 s with
    | (.error err, s') => (s', .error (.error err))
    | (.ok randInt, s') =>
      (s', .ok (writeSep (b ++ (lit "uint64(" ++ fmtUint randInt ++ lit ")")) argNumber n))
  | "rune" =>
    match c.GetRune s with
    | (.error err, s') => (s', .error (.error err))
    | (.ok randRune, s') =>
      (s', .ok (writeSep (b ++ (lit "rune(" ++ runesToString randRune ++ lit ")"))
        argNumber n))
  | "float32" =>
    match c.GetFloat32 s with
    | (.error err, s') => (s', .error (.error err))
    | (.ok randFloat, s') =>
      (s', .ok (writeSep (((b ++ lit "float32(") ++ ff.float32 randFloat) ++ lit ")")
        argNumber n))
  | "float64" =>
    match c.GetFloat64 s with
    | (.error err, s') => (s', .error (.error err))
    | (.ok randFloat, s') =>
      (s', .ok (writeSep (((b ++ lit "float64(") ++ ff.float64 randFloat) ++ lit ")")
        argNumber n))
  | "bool" =>
    match c.GetBool s with
    | (.error err, s') => (s', .error (.error err))
    | (.ok randBool, s') =>
      (s', .ok (writeSep (b ++ (lit "bool(" ++ fmtBool randBool ++ lit ")")) argNumber n))
  | _ => (s, .error (.message "Fuzzer uses unsupported type"))

/-- What a call of the translator leaves behind: the cursor, if one was created, in its
last state; the numbers written to standard output by `fmt.Println(argNumber)`, oldest
first; and the string returned, or the panic raised. -/
structure Exit (σ : Type) where
  consumer : Option σ
  stdout : List Nat
  result : Except Panic GoString

/-- The loop `for argNumber, arg := range args` of `libFuzzerSeedToGoSeed`, started at
index `argNumber` on the remaining arguments, with `n = len(args)`. -/
def encodeLoop {σ : Type} (c : Consumer σ) (ff : FloatFmt) (n : Nat) :
    Nat → List String → GoString → σ → List Nat → Exit σ
  | _, [], b, s, out => ⟨some s, out, .ok b⟩
  | argNumber, arg :: rest, b, s, out =>
    match switchArg c ff n argNumber arg b s with
    | (s', .error p) => ⟨some s', out ++ [argNumber], .error p⟩
    | (s', .ok b') => encodeLoop c ff n (argNumber + 1) rest b' s' (out ++ [argNumber])

/-- Model of `libFuzzerSeedToGoSeed(testcase, args)`. -/
def libFuzzerSeedToGoSeed {σ : Type} (c : Consumer σ) (ff : FloatFmt)
    (testcase : List Nat) (args : List String) : Exit σ :=
  encodeLoop c ff args.length 0 args (lit "go test fuzz v1\n") (c.NewConsumer testcase) []

/-! ## The syntax tree: a fragment of `go/ast`

The nodes that the two visitors inspect (`FuncDecl`, `CallExpr`, `SelectorExpr`, `Ident`,
`FuncLit`, `Field`, `ArrayType`) with their fields, and a selection of the other
expression and statement nodes.  The field `Type` of `ast.Field` is named `Typ`. -/

mutual
/-- Expressions and type expressions, `ast.Expr`. -/
inductive Expr where
  | Ident (Name : String)
  | BasicLit (Value : String)
  | SelectorExpr (X : Expr) (Sel : String)
  | CallExpr (Fun : Expr) (Args : List Expr)
  /-- A function literal; `Params` and `Results` are the field lists of its `Type`. -/
  | FuncLit (Params : List Field) (Results : List Field) (Body : List Stmt)
  | ArrayType (Len : Option Expr) (Elt : Expr)
  | StarExpr (X : Expr)
  | StructType (Fields : List Field)
  | UnaryExpr (Op : String) (X : Expr)
  | BinaryExpr (X : Expr) (Op : String) (Y : Expr)
/-- A parameter group or struct field, `ast.Field`: the declared names, possibly none,
and their common type. -/
inductive Field where
  | mk (Names : List String) (Typ : Expr)
/-- Statements, `ast.Stmt`. -/
inductive Stmt where
  | ExprStmt (X : Expr)
  | AssignStmt (Lhs : List Expr) (Tok : String) (Rhs : List Expr)
  | ReturnStmt (Results : List Expr)
  | BlockStmt (List : List Stmt)
  | IfStmt (Cond : Expr) (Body : List Stmt) (Else : Option Stmt)
  | DeferStmt (Call : Expr)
end

/-- The declared names of a field. -/
def Field.Names : Field → List String
  | .mk Names _ => Names

/-- The type expression of a field. -/
def Field.Typ : Field → Expr
  | .mk _ Typ => Typ

/-- Top-level declarations, `ast.Decl`.  A `FuncDecl` without a body has `Body = none`
(a nil `*ast.BlockStmt`). -/
inductive Decl where
  | FuncDecl (Recv : List Field) (Name : String) (Params : List Field)
      (Results : List Field) (Body : Option (List Stmt))
  | GenDecl (Tok : String) (Values : List Expr)

/-- A parsed source file, `ast.File`. -/
structure File where
  Name : String
  Decls : List Decl

/-- The argument of a `Visit` method: nil, or a node of the tree. -/
inductive Node where
  | nil
  | Expr (e : Expr)
  | Stmt (s : Stmt)
  | Field (f : Field)

/-! ## The signature extractor -/

/-- The visitor of the body of the entry point.  The fields `fset` and `src` of the
source are never read and are left out. -/
structure BodyWalker where
  args : List String
  fuzzerName : String

/-- Model of `getArrayType(n)`, given the fields of the array type node `n`: the
assertion `n.Elt.(*ast.Ident)` panics unless the element type is an identifier. -/
def getArrayType (_Len : Option Expr) (Elt : Expr) : Except Panic String :=
  match Elt with
  | .Ident typeName => .ok ("[]" ++ typeName)
  | _ => .error (.runtime "interface conversion: ast.Expr is not *ast.Ident")

/-- Model of `walker.addArg(arg)`. -/
def BodyWalker.addArg (walker : BodyWalker) (arg : String) : BodyWalker :=
  { walker with args := walker.args ++ [arg] }

/-- The inner loop `for _, _ = range names.Names` of `addArgs`, for a field of type
`Typ`: one iteration per declared name. -/
def BodyWalker.addArgsNames (walker : BodyWalker) (Typ : Expr) :
    List String → Except Panic BodyWalker
  | [] => .ok walker
  | _ :: rest =>
    match Typ with
    | .ArrayType Len Elt =>
      match getArrayType Len Elt with
      | .error p => .error p
      | .ok arg => BodyWalker.addArgsNames (walker.addArg arg) Typ rest
    | .Ident Name => BodyWalker.addArgsNames (walker.addArg Name) Typ rest
    | _ => .error (.runtime "interface conversion: ast.Expr is not *ast.Ident")

/-- Model of `walker.addArgs(n)`: the outer loop over the fields. -/
def BodyWalker.addArgs (walker : BodyWalker) : List Field → Except Panic BodyWalker
  | [] => .ok walker
  | names :: rest =>
    match walker.addArgsNames names.Typ names.Names with
    | .error p => .error p
    | .ok walker' => BodyWalker.addArgs walker' rest

/-- Model of `BodyWalker.Visit(node)`.  The index expression `n.Args[0]`, the assertion
`.(*ast.FuncLit)` and the slice expression `List[1:]` panic when the call has no
argument, when the first argument is not a function literal, and when the literal has
no parameter field. -/
def BodyWalker.Visit (walker : BodyWalker) : Node → Except Panic BodyWalker
  | .Expr (.CallExpr (.SelectorExpr (.Ident Name) Sel) Args) =>
    if Name = "f" ∧ Sel = "Fuzz" then
      match Args with
      | [] => .error (.runtime "index out of range [0] with length 0")
      | .FuncLit Params _ _ :: _ =>
        match Params with
        | [] => .error (.runtime "slice bounds out of range [1:0]")
        | _ :: rest => walker.addArgs rest
      | _ :: _ => .error (.runtime "interface conversion: ast.Expr is not *ast.FuncLit")
    else .ok walker
  | _ => .ok walker

/-! `ast.Walk(bw, node)` for the body visitor: `Visit` the node, walk its children in the
order of `go/ast`, then `Visit(nil)`.  `BodyWalker.Visit` always returns the walker
itself, so every child is walked.  The visits of the nodes that have no counterpart in the
fragment (`FuncType`, `FieldList`, `BlockStmt` bodies, name identifiers) match no case of
the type switch and are not written. -/

mutual
/-- The walk `ast.Walk(bw, e)` of an expression. -/
def walkExpr (w : BodyWalker) : Expr → Except Panic BodyWalker
  | .Ident Name => (w.Visit (.Expr (.Ident Name))).bind fun w1 => w1.Visit .nil
  | .BasicLit Value => (w.Visit (.Expr (.BasicLit Value))).bind fun w1 => w1.Visit .nil
  | .SelectorExpr X Sel =>
    (w.Visit (.Expr (.SelectorExpr X Sel))).bind fun w1 =>
      (walkExpr w1 X).bind fun w2 => w2.Visit .nil
  | .CallExpr Fun Args =>
    (w.Visit (.Expr (.CallExpr Fun Args))).bind fun w1 =>
      (walkExpr w1 Fun).bind fun w2 => (walkExprs w2 Args).bind fun w3 => w3.Visit .nil
  | .FuncLit Params Results Body =>
    (w.Visit (.Expr (.FuncLit Params Results Body))).bind fun w1 =>
      (walkFields w1 Params).bind fun w2 => (walkFields w2 Results).bind fun w3 =>
        (walkStmts w3 Body).bind fun w4 => w4.Visit .nil
  | .ArrayType Len Elt =>
    (w.Visit (.Expr (.ArrayType Len Elt))).bind fun w1 =>
      (walkExprOpt w1 Len).bind fun w2 => (walkExpr w2 Elt).bind fun w3 => w3.Visit .nil
  | .StarExpr X =>
    (w.Visit (.Expr (.StarExpr X))).bind fun w1 =>
      (walkExpr w1 X).bind fun w2 => w2.Visit .nil
  | .StructType Fields =>
    (w.Visit (.Expr (.StructType Fields))).bind fun w1 =>
      (walkFields w1 Fields).bind fun w2 => w2.Visit .nil
  | .UnaryExpr Op X =>
    (w.Visit (.Expr (.UnaryExpr Op X))).bind fun w1 =>
      (walkExpr w1 X).bind fun w2 => w2.Visit .nil
  | .BinaryExpr X Op Y =>
    (w.Visit (.Expr (.BinaryExpr X Op Y))).bind fun w1 =>
      (walkExpr w1 X).bind fun w2 => (walkExpr w2 Y).bind fun w3 => w3.Visit .nil
/-- The walk of an optional expression: `if n.Len != nil { Walk(v, n.Len) }`. -/
def walkExprOpt (w : BodyWalker) : Option Expr → Except Panic BodyWalker
  | none => .ok w
  | some e => walkExpr w e
/-- The walk of a list of expressions, in order. -/
def walkExprs (w : BodyWalker) : List Expr → Except Panic BodyWalker
  | [] => .ok w
  | e :: rest => (walkExpr w e).bind fun w1 => walkExprs w1 rest
/-- The walk `ast.Walk(bw, f)` of a field: its type (the names are identifiers, on which
`Visit` does nothing). -/
def walkField (w : BodyWalker) : Field → Except Panic BodyWalker
  | .mk Names Typ =>
    (w.Visit (.Field (.mk Names Typ))).bind fun w1 =>
      (walkExpr w1 Typ).bind fun w2 => w2.Visit .nil
/-- The walk of a field list, in order. -/
def walkFields (w : BodyWalker) : List Field → Except Panic BodyWalker
  | [] => .ok w
  | f :: rest => (walkField w f).bind fun w1 => walkFields w1 rest
/-- The walk `ast.Walk(bw, s)` of a statement. -/
def walkStmt (w : BodyWalker) : Stmt → Except Panic BodyWalker
  | .ExprStmt X =>
    (w.Visit (.Stmt (.ExprStmt X))).bind fun w1 =>
      (walkExpr w1 X).bind fun w2 => w2.Visit .nil
  | .AssignStmt Lhs Tok Rhs =>
    (w.Visit (.Stmt (.AssignStmt Lhs Tok Rhs))).bind fun w1 =>
      (walkExprs w1 Lhs).bind fun w2 => (walkExprs w2 Rhs).bind fun w3 => w3.Visit .nil
  | .ReturnStmt Results =>
    (w.Visit (.Stmt (.ReturnStmt Results))).bind fun w1 =>
      (walkExprs w1 Results).bind fun w2 => w2.Visit .nil
  | .BlockStmt List =>
    (w.Visit (.Stmt (.BlockStmt List))).bind fun w1 =>
      (walkStmts w1 List).bind fun w2 => w2.Visit .nil
  | .IfStmt Cond Body Else =>
    (w.Visit (.Stmt (.IfStmt Cond Body Else))).bind fun w1 =>
      (walkExpr w1 Cond).bind fun w2 => (walkStmts w2 Body).bind fun w3 =>
        (walkStmtOpt w3 Else).bind fun w4 => w4.Visit .nil
  | .DeferStmt Call =>
    (w.Visit (.Stmt (.DeferStmt Call))).bind fun w1 =>
      (walkExpr w1 Call).bind fun w2 => w2.Visit .nil
/-- The walk of an optional statement: `if n.Else != nil { Walk(v, n.Else) }`. -/
def walkStmtOpt (w : BodyWalker) : Option Stmt → Except Panic BodyWalker
  | none => .ok w
  | some s => walkStmt w s
/-- The walk of a statement list, in order. -/
def walkStmts (w : BodyWalker) : List Stmt → Except Panic BodyWalker
  | [] => .ok w
  | s :: rest => (walkStmt w s).bind fun w1 => walkStmts w1 rest
end

/-- The call `ast.Walk(bw, n.Body)` of `Walker.Visit`: a declaration without a body has
a nil `*ast.BlockStmt`, whose statement list `ast.Walk` dereferences. -/
def walkBody (bw : BodyWalker) : Option (List Stmt) → Except Panic BodyWalker
  | none => .error (.runtime "invalid memory address or nil pointer dereference")
  | some List => walkStmts bw List

/-- The visitor of the file.  The fields `fset` and `src` of the source are never read
and are left out. -/
structure Walker where
  args : List String
  fuzzerName : String

/-- Model of `Walker.Visit(node)` on a declaration. -/
def Walker.Visit (walker : Walker) : Decl → Except Panic Walker
  | .FuncDecl _ Name _ _ Body =>
    if Name = walker.fuzzerName then
      match walkBody { args := [], fuzzerName := walker.fuzzerName } Body with
      | .error p => .error p
      | .ok bw => .ok { walker with args := bw.args }
    else .ok walker
  | .GenDecl _ _ => .ok walker

/-- The walk `ast.Walk(w, f)` of the file visitor over the declarations of the file, in
order.  `Walker.Visit` acts on `FuncDecl` nodes only, and these occur nowhere but in the
declaration list of the file, so the visits below the declarations do nothing. -/
def walkDecls (w : Walker) : List Decl → Except Panic Walker
  | [] => .ok w
  | d :: rest =>
    match w.Visit d with
    | .error p => .error p
    | .ok w1 => walkDecls w1 rest

/-- Model of `getFuzzArgs(fuzzerFileContents, fuzzerName)`.  The parser `parser.ParseFile`
is a parameter.  The result is the pair returned by the source, whose second component is
the error value. -/
def getFuzzArgs (ParseFile : GoString → Except String File)
    (fuzzerFileContents : GoString) (fuzzerName : String) :
    Except Panic (List String × Option String) :=
  match ParseFile fuzzerFileContents with
  | .error err => .error (.error err)
  | .ok f =>
    match walkDecls { args := [], fuzzerName := fuzzerName } f.Decls with
    | .error p => .error p
    | .ok w => .ok (w.args, none)

/-- Model of `ConvertLibfuzzerSeedToGoSeed(fuzzerFileContents, testCase, fuzzerName)`. -/
def ConvertLibfuzzerSeedToGoSeed {σ : Type} (ParseFile : GoString → Except String File)
    (c : Consumer σ) (ff : FloatFmt) (fuzzerFileContents testCase : List Nat)
    (fuzzerName : String) : Exit σ :=
  match getFuzzArgs ParseFile fuzzerFileContents fuzzerName with
  | .error p => ⟨none, [], .error p⟩
  | .ok (_, some err) => ⟨none, [], .error (.error err)⟩
  | .ok (args, none) => libFuzzerSeedToGoSeed c ff testCase args

/-! ## The `switch` as a table

A second description of the `switch` statement of the encoder, as a table: a tag
designates the cursor operation that its case calls and the token that its case writes.
It is compared with `switchArg` below (`switchArg_eq`).  The catalog of the
specification comes after it. -/

/-- The cursor operations that the cases of the `switch` call. -/
inductive CursorOp where
  | GetBytes | GetString | GetInt | GetUint16 | GetUint32 | GetUint64
  | GetRune | GetFloat32 | GetFloat64 | GetBool
  deriving DecidableEq, Repr

/-- A decoded value, as returned by one of the cursor operations. -/
inductive Value where
  | bytes (v : List Nat)
  | text (v : GoString)
  | int (v : Int)
  | uint (v : Nat)
  | rune (v : List Int)
  | float32 (v : Nat)
  | float64 (v : Nat)
  | bool (v : Bool)
  deriving DecidableEq, Repr

/-- The effect of a cursor operation on a cursor state: the decoded value or the error,
and the state left. -/
def Consumer.call {σ : Type} (c : Consumer σ) (op : CursorOp) (s : σ) :
    Except String Value × σ :=
  match op with
  | .GetBytes => ((c.GetBytes s).1.map Value.bytes, (c.GetBytes s).2)
  | .GetString => ((c.GetString s).1.map Value.text, (c.GetString s).2)
  | .GetInt => ((c.GetInt s).1.map Value.int, (c.GetInt s).2)
  | .GetUint16 => ((c.GetUint16 s).1.map Value.uint, (c.GetUint16 s).2)
  | .GetUint32 => ((c.GetUint32 s).1.map Value.uint, (c.GetUint32 s).2)
  | .GetUint64 => ((c.GetUint64 s).1.map Value.uint, (c.GetUint64 s).2)
  | .GetRune => ((c.GetRune s).1.map Value.rune, (c.GetRune s).2)
  | .GetFloat32 => ((c.GetFloat32 s).1.map Value.float32, (c.GetFloat32 s).2)
  | .GetFloat64 => ((c.GetFloat64 s).1.map Value.float64, (c.GetFloat64 s).2)
  | .GetBool => ((c.GetBool s).1.map Value.bool, (c.GetBool s).2)

/-- The tags that have a case in the `switch`, with the cursor operation that the case
calls. -/
def switchTable : List (String × CursorOp) :=
  [("[]uint8", .GetBytes), ("[]byte", .GetBytes), ("string", .GetString),
   ("int", .GetInt), ("int8", .GetInt), ("int16", .GetInt), ("int32", .GetInt),
   ("int64", .GetInt), ("uint", .GetInt), ("uint8", .GetInt),
   ("uint16", .GetUint16), ("uint32", .GetUint32), ("uint64", .GetUint64),
   ("rune", .GetRune), ("float32", .GetFloat32), ("float64", .GetFloat64),
   ("bool", .GetBool)]

/-- The operation that the case of a tag calls, `none` for a tag that reaches the
default case. -/
def switchOp (tag : String) : Option CursorOp :=
  switchTable.lookup tag

/-- The token that the case of a tag writes for a decoded value, as its `Sprintf` call
forms it: the value is written as it is, between quotes for byte sequences and texts.
Byte sequences are written under the tag `[]byte`, every other value under the tag of
its parameter. -/
def switchToken (ff : FloatFmt) (tag : String) : Value → GoString
  | .bytes v => lit "[]byte(\"" ++ v ++ lit "\")"
  | .text v => lit tag ++ lit "(\"" ++ v ++ lit "\")"
  | .int v => lit tag ++ lit "(" ++ Itoa v ++ lit ")"
  | .uint v => lit tag ++ lit "(" ++ fmtUint v ++ lit ")"
  | .rune v => lit tag ++ lit "(" ++ runesToString v ++ lit ")"
  | .float32 v => lit tag ++ lit "(" ++ ff.float32 v ++ lit ")"
  | .float64 v => lit tag ++ lit "(" ++ ff.float64 v ++ lit ")"
  | .bool v => lit tag ++ lit "(" ++ fmtBool v ++ lit ")"

/-- Decoding by the table: starting from cursor state `s`, call the operation of each
tag in order on the state left by the previous one and form the token of the value.  The
result is the list of tokens and the last state, or `none` when a tag has no case or an
operation returns an error. -/
def decodeAll {σ : Type} (c : Consumer σ) (ff : FloatFmt) :
    List String → σ → Option (List GoString × σ)
  | [], s => some ([], s)
  | tag :: rest, s =>
    match switchOp tag with
    | none => none
    | some op =>
      match c.call op s with
      | (.error _, _) => none
      | (.ok v, s') =>
        match decodeAll c ff rest s' with
        | none => none
        | some (tokens, final) => some (switchToken ff tag v :: tokens, final)

/-- The cursor state reached from `s` after the operations of the given tags, each
applied to the state left by the previous one (a tag without a case has none). -/
def stateAfter {σ : Type} (c : Consumer σ) : List String → σ → σ
  | [], s => s
  | tag :: rest, s =>
    match switchOp tag with
    | none => stateAfter c rest s
    | some op => stateAfter c rest (c.call op s).2

/-- Every tag of the signature has a case in the `switch`, as every tag of the catalog
has, and every cursor operation succeeds, each on the state that the operations of the
earlier parameters left. -/
def AllSucceed {σ : Type} (c : Consumer σ) (args : List String) (s : σ) : Prop :=
  ∀ k tag, args[k]? = some tag →
    ∃ op v, switchOp tag = some op ∧ (c.call op (stateAfter c (args.take k) s)).1 = .ok v

/-! ## The type catalog of the specification -/

/-- The closed catalog of the specification: the tags of the parameter types it lists,
byte sequence, text, the signed integers of 8, 16, 32 and 64 bits and of platform width,
the unsigned integers of 8, 16, 32 and 64 bits, character, the floats of 32 and 64 bits
and boolean, each with its cursor operation.  The tag `uint` is not in the catalog. -/
def catalogTable : List (String × CursorOp) :=
  [("[]byte", .GetBytes), ("[]uint8", .GetBytes), ("string", .GetString),
   ("int8", .GetInt), ("int16", .GetInt), ("int32", .GetInt), ("int64", .GetInt),
   ("int", .GetInt), ("uint8", .GetInt),
   ("uint16", .GetUint16), ("uint32", .GetUint32), ("uint64", .GetUint64),
   ("rune", .GetRune), ("float32", .GetFloat32), ("float64", .GetFloat64),
   ("bool", .GetBool)]

/-- Decode dispatch of the catalog: the operation of a tag, `none` outside the catalog. -/
def catalogOp (tag : String) : Option CursorOp :=
  catalogTable.lookup tag

/-! ## Instrumented and concrete cursors -/

/-- The cursor `c` with a log: every operation appends its name to the list of the
operations invoked so far, whether it succeeds or not. -/
def Consumer.traced {σ : Type} (c : Consumer σ) : Consumer (σ × List CursorOp) where
  NewConsumer t := (c.NewConsumer t, [])
  GetBytes s := ((c.GetBytes s.1).1, ((c.GetBytes s.1).2, s.2 ++ [.GetBytes]))
  GetString s := ((c.GetString s.1).1, ((c.GetString s.1).2, s.2 ++ [.GetString]))
  GetInt s := ((c.GetInt s.1).1, ((c.GetInt s.1).2, s.2 ++ [.GetInt]))
  GetUint16 s := ((c.GetUint16 s.1).1, ((c.GetUint16 s.1).2, s.2 ++ [.GetUint16]))
  GetUint32 s := ((c.GetUint32 s.1).1, ((c.GetUint32 s.1).2, s.2 ++ [.GetUint32]))
  GetUint64 s := ((c.GetUint64 s.1).1, ((c.GetUint64 s.1).2, s.2 ++ [.GetUint64]))
  GetRune s := ((c.GetRune s.1).1, ((c.GetRune s.1).2, s.2 ++ [.GetRune]))
  GetFloat32 s := ((c.GetFloat32 s.1).1, ((c.GetFloat32 s.1).2, s.2 ++ [.GetFloat32]))
  GetFloat64 s := ((c.GetFloat64 s.1).1, ((c.GetFloat64 s.1).2, s.2 ++ [.GetFloat64]))
  GetBool s := ((c.GetBool s.1).1, ((c.GetBool s.1).2, s.2 ++ [.GetBool]))

/-- The cursor operations invoked during a call run on a traced cursor, oldest first;
none when no cursor was created. -/
def Exit.calls {σ : Type} (e : Exit (σ × List CursorOp)) : List CursorOp :=
  match e.consumer with
  | none => []
  | some s => s.2

/-- The operations invoked, in order, when the encoder runs the given tags from cursor
state `s`: the operation of each tag in turn, up to and including the first one that
returns an error, or up to the first tag without a case. -/
def callsOf {σ : Type} (c : Consumer σ) : List String → σ → List CursorOp
  | [], _ => []
  | tag :: rest, s =>
    match switchOp tag with
    | none => []
    | some op =>
      match c.call op s with
      | (.error _, _) => [op]
      | (.ok _, s') => op :: callsOf c rest s'

/-- First `k` bytes of the remaining buffer, or an error when fewer remain. -/
def takeBytes (k : Nat) (s : List Nat) : Except String (List Nat) × List Nat :=
  if k ≤ s.length then (.ok (s.take k), s.drop k) else (.error "not enough bytes", s)

/-- Big-endian value of a byte sequence. -/
def beNat (bs : List Nat) : Nat :=
  bs.foldl (fun acc x => acc * 256 + x) 0

/-- A small cursor over the list of the bytes that remain, used to run the encoder on
concrete buffers.  Scalars take a fixed number of bytes, sequences are prefixed by a
length byte; every operation fails when too few bytes remain.  It is one implementation
of the operation contracts, not the algorithm of go-fuzz-headers. -/
def byteCursor : Consumer (List Nat) where
  NewConsumer t := t
  GetBytes s :=
    match s with
    | [] => (.error "not enough bytes", [])
    | k :: rest => takeBytes k rest
  GetString s :=
    match s with
    | [] => (.error "not enough bytes", [])
    | k :: rest => takeBytes k rest
  GetInt s :=
    match s with
    | [] => (.error "not enough bytes", [])
    | x :: rest => (.ok (Int.ofNat x), rest)
  GetUint16 s := ((takeBytes 2 s).1.map beNat, (takeBytes 2 s).2)
  GetUint32 s := ((takeBytes 4 s).1.map beNat, (takeBytes 4 s).2)
  GetUint64 s := ((takeBytes 8 s).1.map beNat, (takeBytes 8 s).2)
  GetRune s :=
    match s with
    | [] => (.error "not enough bytes", [])
    | x :: rest => (.ok [Int.ofNat x], rest)
  GetFloat32 s := ((takeBytes 4 s).1.map beNat, (takeBytes 4 s).2)
  GetFloat64 s := ((takeBytes 8 s).1.map beNat, (takeBytes 8 s).2)
  GetBool s :=
    match s with
    | [] => (.error "not enough bytes", [])
    | x :: rest => (.ok (x % 2 == 1), rest)

/-- A float rendering for the runs below, none of which has a float parameter. -/
def zeroFloatFmt : FloatFmt where
  float32 _ := lit "0.000000"
  float64 _ := lit "0.000000"

/-! ## Lines and quoted literals of the corpus text -/

/-- Number of lines of a text: one per newline, and one more for a last line that no
newline ends. -/
def lineCount (s : GoString) : Nat :=
  s.count 10 + (if s = [] ∨ s.getLast? = some 10 then 0 else 1)

/-- The text after the marker line, when the text starts with the marker line. -/
def afterMarker (out : GoString) : Option GoString :=
  if (lit "go test fuzz v1\n").isPrefixOf out then
    some (out.drop (lit "go test fuzz v1\n").length)
  else none

/-- Value of a hexadecimal digit. -/
def hexVal (d : Nat) : Option Nat :=
  if 48 ≤ d ∧ d ≤ 57 then some (d - 48)
  else if 97 ≤ d ∧ d ≤ 102 then some (d - 87)
  else if 65 ≤ d ∧ d ≤ 70 then some (d - 55)
  else none

/-- Value of a sequence of hexadecimal digits, most significant first. -/
def hexNat : List Nat → Option Nat
  | [] => some 0
  | d :: rest =>
    match hexVal d, hexNat rest with
    | some v, some w => some (v * 16 ^ rest.length + w)
    | _, _ => none

/-- The code point of a `\u` or `\U` escape, encoded in UTF-8; surrogates and values
above U+10FFFF are rejected. -/
def unicodeEscape (digits : List Nat) : Option GoString :=
  match hexNat digits with
  | none => none
  | some v =>
    if (0xD800 ≤ v ∧ v ≤ 0xDFFF) ∨ 0x10FFFF < v then none
    else some (utf8EncodeRune (Int.ofNat v))

/-- The rune that a byte sequence is the UTF-8 encoding of, when it encodes exactly one
rune. -/
def utf8DecodeRune (bs : List Nat) : Option Int :=
  let candidate : Option Nat :=
    match bs with
    | [a] => some a
    | [a, b] => some ((a - 0xC0) * 64 + (b - 0x80))
    | [a, b, c] => some ((a - 0xE0) * 4096 + (b - 0x80) * 64 + (c - 0x80))
    | [a, b, c, d] =>
      some ((a - 0xF0) * 262144 + (b - 0x80) * 4096 + (c - 0x80) * 64 + (d - 0x80))
    | _ => none
  match candidate with
  | none => none
  | some n => if utf8EncodeRune (Int.ofNat n) = bs then some (Int.ofNat n) else none

/-- Length of the well-formed UTF-8 sequence of two, three or four bytes that starts with
the byte `x` followed by `rest`; zero when there is none. -/
def utf8SeqLen (x : Nat) (rest : List Nat) : Nat :=
  match rest with
  | [] => 0
  | a :: rest1 =>
    if (utf8DecodeRune [x, a]).isSome then 2
    else
      match rest1 with
      | [] => 0
      | b :: rest2 =>
        if (utf8DecodeRune [x, a, b]).isSome then 3
        else
          match rest2 with
          | [] => 0
          | d :: _ => if (utf8DecodeRune [x, a, b, d]).isSome then 4 else 0

/-- The contents of an interpreted string literal, between its double quotes, read as
the Go language does (`strconv.Unquote`): an unescaped double quote or newline is an
error, a backslash starts an escape sequence, a byte below 128 stands for itself, a
well-formed UTF-8 sequence is copied, and a byte above 127 that starts none is replaced
by the encoding of U+FFFD.  The first argument is the number of bytes still to copy of
the UTF-8 sequence under way. -/
def unquoteBody : Nat → List Nat → Option GoString
  | _, [] => some []
  | pending + 1, x :: rest => (unquoteBody pending rest).map (x :: ·)
  | 0, x :: rest =>
    if x = 34 ∨ x = 10 then none
    else if x < 128 ∧ x ≠ 92 then (unquoteBody 0 rest).map (x :: ·)
    else if x ≠ 92 then
      if utf8SeqLen x rest = 0 then (unquoteBody 0 rest).map ([0xEF, 0xBF, 0xBD] ++ ·)
      else (unquoteBody (utf8SeqLen x rest - 1) rest).map (x :: ·)
    else
      match rest with
      | [] => none
      | e :: rest1 =>
        if e = 97 then (unquoteBody 0 rest1).map (7 :: ·)
        else if e = 98 then (unquoteBody 0 rest1).map (8 :: ·)
        else if e = 102 then (unquoteBody 0 rest1).map (12 :: ·)
        else if e = 110 then (unquoteBody 0 rest1).map (10 :: ·)
        else if e = 114 then (unquoteBody 0 rest1).map (13 :: ·)
        else if e = 116 then (unquoteBody 0 rest1).map (9 :: ·)
        else if e = 118 then (unquoteBody 0 rest1).map (11 :: ·)
        else if e = 92 then (unquoteBody 0 rest1).map (92 :: ·)
        else if e = 34 then (unquoteBody 0 rest1).map (34 :: ·)
        else if e = 120 then
          match rest1 with
          | a :: b :: rest2 =>
            match hexNat [a, b], unquoteBody 0 rest2 with
            | some v, some r => some (v :: r)
            | _, _ => none
          | _ => none
        else if e = 117 then
          match rest1 with
          | a :: b :: c :: d :: rest2 =>
            match unicodeEscape [a, b, c, d], unquoteBody 0 rest2 with
            | some v, some r => some (v ++ r)
            | _, _ => none
          | _ => none
        else if e = 85 then
          match rest1 with
          | a :: b :: c :: d :: a' :: b' :: c' :: d' :: rest2 =>
            match unicodeEscape [a, b, c, d, a', b', c', d'], unquoteBody 0 rest2 with
            | some v, some r => some (v ++ r)
            | _, _ => none
          | _ => none
        else if 48 ≤ e ∧ e ≤ 55 then
          match rest1 with
          | a :: b :: rest2 =>
            if 48 ≤ a ∧ a ≤ 55 ∧ 48 ≤ b ∧ b ≤ 55 ∧
                (e - 48) * 64 + (a - 48) * 8 + (b - 48) ≤ 255 then
              (unquoteBody 0 rest2).map (((e - 48) * 64 + (a - 48) * 8 + (b - 48)) :: ·)
            else none
          | _ => none
        else none

/-- The value of a double-quoted string literal; `none` when the text is not one. -/
def Unquote (s : GoString) : Option GoString :=
  match s with
  | 34 :: rest =>
    if rest.getLast? = some 34 then unquoteBody 0 rest.dropLast else none
  | _ => none

/-- Reading a token `wrapper("...")` back: the text between `wrapper(` and the closing
parenthesis, read as a quoted string literal. -/
def readBack (wrapper : String) (token : GoString) : Option GoString :=
  if (lit wrapper ++ lit "(").isPrefixOf token ∧ token.getLast? = some 41 then
    Unquote ((token.drop (lit wrapper ++ lit "(").length).dropLast)
  else none

/-! ## Vocabulary of the claims about the extractor -/

/-- The callee of a call is `f.Fuzz`: a selector `Fuzz` on the plain identifier `f`. -/
def isFuzzSelector : Expr → Bool
  | .SelectorExpr (.Ident Name) Sel => Name = "f" ∧ Sel = "Fuzz"
  | _ => false

mutual
/-- Some call expression in the expression, at any depth, has the callee `f.Fuzz`. -/
def hasFuzzCallExpr : Expr → Bool
  | .Ident _ => false
  | .BasicLit _ => false
  | .SelectorExpr X _ => hasFuzzCallExpr X
  | .CallExpr Fun Args => isFuzzSelector Fun || hasFuzzCallExpr Fun || hasFuzzCallExprs Args
  | .FuncLit Params Results Body =>
    hasFuzzCallFields Params || hasFuzzCallFields Results || hasFuzzCallStmts Body
  | .ArrayType Len Elt => hasFuzzCallExprOpt Len || hasFuzzCallExpr Elt
  | .StarExpr X => hasFuzzCallExpr X
  | .StructType Fields => hasFuzzCallFields Fields
  | .UnaryExpr _ X => hasFuzzCallExpr X
  | .BinaryExpr X _ Y => hasFuzzCallExpr X || hasFuzzCallExpr Y
/-- Some call expression in the optional expression has the callee `f.Fuzz`. -/
def hasFuzzCallExprOpt : Option Expr → Bool
  | none => false
  | some e => hasFuzzCallExpr e
/-- Some call expression in the list of expressions has the callee `f.Fuzz`. -/
def hasFuzzCallExprs : List Expr → Bool
  | [] => false
  | e :: rest => hasFuzzCallExpr e || hasFuzzCallExprs rest
/-- Some call expression in the type of the field has the callee `f.Fuzz`. -/
def hasFuzzCallField : Field → Bool
  | .mk _ Typ => hasFuzzCallExpr Typ
/-- Some call expression in the field list has the callee `f.Fuzz`. -/
def hasFuzzCallFields : List Field → Bool
  | [] => false
  | f :: rest => hasFuzzCallField f || hasFuzzCallFields rest
/-- Some call expression in the statement, at any depth, has the callee `f.Fuzz`. -/
def hasFuzzCallStmt : Stmt → Bool
  | .ExprStmt X => hasFuzzCallExpr X
  | .AssignStmt Lhs _ Rhs => hasFuzzCallExprs Lhs || hasFuzzCallExprs Rhs
  | .ReturnStmt Results => hasFuzzCallExprs Results
  | .BlockStmt List => hasFuzzCallStmts List
  | .IfStmt Cond Body Else =>
    hasFuzzCallExpr Cond || hasFuzzCallStmts Body || hasFuzzCallStmtOpt Else
  | .DeferStmt Call => hasFuzzCallExpr Call
/-- Some call expression in the optional statement has the callee `f.Fuzz`. -/
def hasFuzzCallStmtOpt : Option Stmt → Bool
  | none => false
  | some s => hasFuzzCallStmt s
/-- Some call expression in the statement list has the callee `f.Fuzz`. -/
def hasFuzzCallStmts : List Stmt → Bool
  | [] => false
  | s :: rest => hasFuzzCallStmt s || hasFuzzCallStmts rest
end

/-- The declaration is a function declaration with the given name. -/
def Decl.isNamed (name : String) : Decl → Bool
  | .FuncDecl _ Name _ _ _ => Name = name
  | .GenDecl _ _ => false

/-- The body of a declaration, when it is a function declaration with a body. -/
def Decl.Body : Decl → Option (List Stmt)
  | .FuncDecl _ _ _ _ Body => Body
  | .GenDecl _ _ => none

/-- The type tag of a type expression as the specification defines it: a bare named type
`T` has the tag `T`, a sequence of a named type `T` has the tag `[]T`, any other type
syntax has none. -/
def typeTag : Expr → Option String
  | .Ident Name => some Name
  | .ArrayType _ (.Ident Name) => some ("[]" ++ Name)
  | _ => none

/-- The type expressions of the parameters of a parameter list, one per parameter, in
declaration order: a field with names declares one parameter per name, a field without
names declares one unnamed parameter. -/
def paramTypes : List Field → List Expr
  | [] => []
  | f :: rest =>
    (if f.Names = [] then [f.Typ] else f.Names.map fun _ => f.Typ) ++ paramTypes rest

/-- The signature that the specification assigns to a function literal with the given
parameter list: the type tags of all parameters except the first, in declaration order;
`none` when one of these has no tag. -/
def specSignature (Params : List Field) : Option (List String) :=
  ((paramTypes Params).drop 1).mapM typeTag

/-! ## Harnesses used in the evaluations -/

/-- The type expression `*testing.T`. -/
def testingT : Expr := .StarExpr (.SelectorExpr (.Ident "testing") "T")

/-- The syntax tree of a file `package p` whose only declaration is
`func FuzzX(f *testing.F) { f.Fuzz(func(<Params>) {}) }`. -/
def harnessFile (Params : List Field) : File where
  Name := "p"
  Decls :=
    [.FuncDecl [] "FuzzX" [.mk ["f"] (.StarExpr (.SelectorExpr (.Ident "testing") "F"))] []
      (some [.ExprStmt (.CallExpr (.SelectorExpr (.Ident "f") "Fuzz")
        [.FuncLit Params [] []])])]

/-- A parser that returns the given tree for every source text. -/
def parseAs (f : File) : GoString → Except String File :=
  fun _ => .ok f

/-- Parameters `(t *testing.T, a []byte, b int, c bool)`. -/
def paramsNamed : List Field :=
  [.mk ["t"] testingT, .mk ["a"] (.ArrayType none (.Ident "byte")),
   .mk ["b"] (.Ident "int"), .mk ["c"] (.Ident "bool")]

/-- Parameters `(*testing.T, []byte, int)`, all unnamed. -/
def paramsUnnamed : List Field :=
  [.mk [] testingT, .mk [] (.ArrayType none (.Ident "byte")), .mk [] (.Ident "int")]

/-- Parameters `(*testing.T, *int)`, all unnamed, the second of pointer type. -/
def paramsUnnamedPointer : List Field :=
  [.mk [] testingT, .mk [] (.StarExpr (.Ident "int"))]

/-- Parameters `(t *testing.T, a *int)`, the second of pointer type. -/
def paramsNamedPointer : List Field :=
  [.mk ["t"] testingT, .mk ["a"] (.StarExpr (.Ident "int"))]

/-- Parameters `(t *testing.T, a int, b MyStruct)`, the last of a named struct type. -/
def paramsStructLast : List Field :=
  [.mk ["t"] testingT, .mk ["a"] (.Ident "int"), .mk ["b"] (.Ident "MyStruct")]

/-- A file `package p` that declares the function `Helper` only, with an empty body. -/
def fileWithoutEntryPoint : File where
  Name := "p"
  Decls := [.FuncDecl [] "Helper" [] [] (some [])]

/-- A file `package p` whose only declaration is `func FuzzX(f *testing.F) { g(1) }`. -/
def fileWithoutFuzzCall : File where
  Name := "p"
  Decls :=
    [.FuncDecl [] "FuzzX" [.mk ["f"] (.StarExpr (.SelectorExpr (.Ident "testing") "F"))] []
      (some [.ExprStmt (.CallExpr (.Ident "g") [.BasicLit "1"])])]

/-! ## Character literals -/

/-- The code point of a `\u` or `\U` escape in a character literal. -/
def unicodeEscapeRune (digits : List Nat) : Option Int :=
  match hexNat digits with
  | none => none
  | some v =>
    if (0xD800 ≤ v ∧ v ≤ 0xDFFF) ∨ 0x10FFFF < v then none else some (Int.ofNat v)

/-- The contents of a character literal, between its single quotes, read as the Go
language does: one escape sequence, or one character other than the single quote and
the newline. -/
def runeBody (body : List Nat) : Option Int :=
  match body with
  | [] => none
  | x :: rest =>
    if x = 92 then
      match rest with
      | [e] =>
        if e = 97 then some 7 else if e = 98 then some 8 else if e = 102 then some 12
        else if e = 110 then some 10 else if e = 114 then some 13
        else if e = 116 then some 9 else if e = 118 then some 11
        else if e = 92 then some 92 else if e = 39 then some 39 else none
      | [e, a, b] =>
        if e = 120 then (hexNat [a, b]).map Int.ofNat
        else if 48 ≤ e ∧ e ≤ 55 ∧ 48 ≤ a ∧ a ≤ 55 ∧ 48 ≤ b ∧ b ≤ 55 ∧
            (e - 48) * 64 + (a - 48) * 8 + (b - 48) ≤ 255 then
          some (Int.ofNat ((e - 48) * 64 + (a - 48) * 8 + (b - 48)))
        else none
      | [e, a, b, c, d] => if e = 117 then unicodeEscapeRune [a, b, c, d] else none
      | [e, a, b, c, d, a', b', c', d'] =>
        if e = 85 then unicodeEscapeRune [a, b, c, d, a', b', c', d'] else none
      | _ => none
    else if body = [39] ∨ body = [10] then none
    else utf8DecodeRune body

/-- The value of a character literal, a text between single quotes; `none` when the text
is not one. -/
def UnquoteRune (s : GoString) : Option Int :=
  match s with
  | [] => none
  | x :: rest =>
    if x = 39 ∧ rest.getLast? = some 39 then runeBody rest.dropLast else none

/-- Reading a token `rune(...)` back: the text between `rune(` and the closing
parenthesis, read as a character literal. -/
def readBackRune (token : GoString) : Option Int :=
  if (lit "rune(").isPrefixOf token ∧ token.getLast? = some 41 then
    UnquoteRune ((token.drop (lit "rune(").length).dropLast)
  else none

/-! ## The rendering rules of the catalog -/

/-- The value of a decimal numeral without sign: one digit or more. -/
def readNat (ds : List Nat) : Option Nat :=
  if ds = [] then none
  else
    ds.foldl (fun acc d =>
      match acc with
      | none => none
      | some n => if 48 ≤ d ∧ d ≤ 57 then some (n * 10 + (d - 48)) else none) (some 0)

/-- The value of a decimal numeral, with a minus sign in front when negative. -/
def readInt (ds : List Nat) : Option Int :=
  match ds with
  | [] => none
  | x :: rest =>
    if x = 45 then (readNat rest).map fun n => - Int.ofNat n
    else (readNat (x :: rest)).map Int.ofNat

/-- Reading a token `wrapper(<decimal>)` back: the text between `wrapper(` and the closing
parenthesis, read as a decimal numeral. -/
def readBackInt (wrapper : String) (token : GoString) : Option Int :=
  if (lit wrapper ++ lit "(").isPrefixOf token ∧ token.getLast? = some 41 then
    readInt ((token.drop (lit wrapper ++ lit "(").length).dropLast)
  else none

/-- The rendering rule of the catalog of the specification, as a test of a token against
the decoded value it stands for: a byte sequence is `[]byte(...)` around a quoted string
literal of the bytes, a text is the tag around a quoted string literal of the text, an
integer is the tag around its decimal, a character is `rune(...)` around a character
literal of the one character decoded, a float is the tag around its fixed-point decimal,
a boolean is `bool(true)` or `bool(false)`. -/
def tokenFollowsRule (ff : FloatFmt) (tag : String) (v : Value) (token : GoString) : Bool :=
  match v with
  | .bytes bs => readBack "[]byte" token == some bs
  | .text str => readBack tag token == some str
  | .int i => readBackInt tag token == some i
  | .uint n => readBackInt tag token == some (Int.ofNat n)
  | .rune rs =>
    match rs with
    | [r] => readBackRune token == some r
    | _ => false
  | .float32 x => token == lit tag ++ lit "(" ++ ff.float32 x ++ lit ")"
  | .float64 x => token == lit tag ++ lit "(" ++ ff.float64 x ++ lit ")"
  | .bool b => token == (if b then lit "bool(true)" else lit "bool(false)")

/-! ## The signature of a body, as the claims word it -/

/-- The tags that the parameter fields contribute, one copy of the type tag of a field
per declared name of the field, in order; `none` when a field with a name has a type
without a tag. -/
def fieldTags : List Field → Option (List String)
  | [] => some []
  | f :: rest =>
    match (if f.Names = [] then some [] else
        (typeTag f.Typ).map (List.replicate f.Names.length)), fieldTags rest with
    | some tags, some more => some (tags ++ more)
    | _, _ => none

/-- The tags of the fields when every type has one: for each field in order, one copy of
its type tag per declared name. -/
def nameTags (fields : List Field) : List String :=
  fields.flatMap fun f => List.replicate f.Names.length ((typeTag f.Typ).getD "")

/-- The retained parameter tags of a call `f.Fuzz(Args)`: those of the parameter fields
after the first field of the function literal that is the first argument; `none` when
the first argument is no function literal or the literal has no parameter field. -/
def callTags : List Expr → Option (List String)
  | .FuncLit (_ :: rest) _ _ :: _ => fieldTags rest
  | _ => none

/-- Concatenation of two optional lists of tags. -/
def optAppend : Option (List String) → Option (List String) → Option (List String)
  | some a, some b => some (a ++ b)
  | _, _ => none

mutual
/-- The retained tags of the `f.Fuzz` calls of an expression, concatenated in the order
of the traversal: a call comes before the calls inside its callee and its arguments. -/
def fuzzTagsExpr : Expr → Option (List String)
  | .Ident _ => some []
  | .BasicLit _ => some []
  | .SelectorExpr X _ => fuzzTagsExpr X
  | .CallExpr Fun Args =>
    optAppend (if isFuzzSelector Fun then callTags Args else some [])
      (optAppend (fuzzTagsExpr Fun) (fuzzTagsExprs Args))
  | .FuncLit Params Results Body =>
    optAppend (fuzzTagsFields Params)
      (optAppend (fuzzTagsFields Results) (fuzzTagsStmts Body))
  | .ArrayType Len Elt => optAppend (fuzzTagsExprOpt Len) (fuzzTagsExpr Elt)
  | .StarExpr X => fuzzTagsExpr X
  | .StructType Fields => fuzzTagsFields Fields
  | .UnaryExpr _ X => fuzzTagsExpr X
  | .BinaryExpr X _ Y => optAppend (fuzzTagsExpr X) (fuzzTagsExpr Y)
/-- The retained tags of the `f.Fuzz` calls of an optional expression. -/
def fuzzTagsExprOpt : Option Expr → Option (List String)
  | none => some []
  | some e => fuzzTagsExpr e
/-- The retained tags of the `f.Fuzz` calls of a list of expressions, in order. -/
def fuzzTagsExprs : List Expr → Option (List String)
  | [] => some []
  | e :: rest => optAppend (fuzzTagsExpr e) (fuzzTagsExprs rest)
/-- The retained tags of the `f.Fuzz` calls in the type of a field. -/
def fuzzTagsField : Field → Option (List String)
  | .mk _ Typ => fuzzTagsExpr Typ
/-- The retained tags of the `f.Fuzz` calls of a field list, in order. -/
def fuzzTagsFields : List Field → Option (List String)
  | [] => some []
  | f :: rest => optAppend (fuzzTagsField f) (fuzzTagsFields rest)
/-- The retained tags of the `f.Fuzz` calls of a statement, in traversal order. -/
def fuzzTagsStmt : Stmt → Option (List String)
  | .ExprStmt X => fuzzTagsExpr X
  | .AssignStmt Lhs _ Rhs => optAppend (fuzzTagsExprs Lhs) (fuzzTagsExprs Rhs)
  | .ReturnStmt Results => fuzzTagsExprs Results
  | .BlockStmt List => fuzzTagsStmts List
  | .IfStmt Cond Body Else =>
    optAppend (fuzzTagsExpr Cond) (optAppend (fuzzTagsStmts Body) (fuzzTagsStmtOpt Else))
  | .DeferStmt Call => fuzzTagsExpr Call
/-- The retained tags of the `f.Fuzz` calls of an optional statement. -/
def fuzzTagsStmtOpt : Option Stmt → Option (List String)
  | none => some []
  | some s => fuzzTagsStmt s
/-- The retained tags of the `f.Fuzz` calls of a statement list, in order. -/
def fuzzTagsStmts : List Stmt → Option (List String)
  | [] => some []
  | s :: rest => optAppend (fuzzTagsStmt s) (fuzzTagsStmts rest)
end

/-! ## More harnesses -/

/-- The statement `f.Fuzz(func(<Params>) {})`. -/
def fuzzCallStmt (Params : List Field) : Stmt :=
  .ExprStmt (.CallExpr (.SelectorExpr (.Ident "f") "Fuzz") [.FuncLit Params [] []])

/-- The syntax tree of a file `package p` whose only declaration is the function
`func <name>(f *testing.F) { <Body> }`. -/
def entryPointFile (name : String) (Body : List Stmt) : File where
  Name := "p"
  Decls :=
    [.FuncDecl [] name [.mk ["f"] (.StarExpr (.SelectorExpr (.Ident "testing") "F"))] []
      (some Body)]

/-- The body `t.Fuzz(x); f.Add(1); a.b.Fuzz(2); Fuzz(3)`: calls with another receiver
name, another method name, a receiver that is no identifier, and no receiver. -/
def bodyOtherCalls : List Stmt :=
  [.ExprStmt (.CallExpr (.SelectorExpr (.Ident "t") "Fuzz") [.Ident "x"]),
   .ExprStmt (.CallExpr (.SelectorExpr (.Ident "f") "Add") [.BasicLit "1"]),
   .ExprStmt (.CallExpr (.SelectorExpr (.SelectorExpr (.Ident "a") "b") "Fuzz")
     [.BasicLit "2"]),
   .ExprStmt (.CallExpr (.Ident "Fuzz") [.BasicLit "3"])]

/-- The body `f.Fuzz(func(t *testing.T, a int) {}); f.Fuzz(func(t *testing.T, b string,
c, d bool) {})`, with two calls of `f.Fuzz`. -/
def bodyTwoFuzzCalls : List Stmt :=
  [fuzzCallStmt [.mk ["t"] testingT, .mk ["a"] (.Ident "int")],
   fuzzCallStmt [.mk ["t"] testingT, .mk ["b"] (.Ident "string"),
     .mk ["c", "d"] (.Ident "bool")]]

/-- Parameter fields `(a, b int, c []byte, float64)`: two names, one name, no name. -/
def fieldsMixed : List Field :=
  [.mk ["a", "b"] (.Ident "int"), .mk ["c"] (.ArrayType none (.Ident "byte")),
   .mk [] (.Ident "float64")]

/-! ## The encoder against the table of the `switch` -/

theorem lit_append (a b : String) : lit (a ++ b) = lit a ++ lit b := by
  simp [lit, String.toList]

theorem lit_append_left (a b : String) (x : GoString) :
    lit a ++ (lit b ++ x) = lit (a ++ b) ++ x := by
  simp [lit_append]

theorem switchOp_eq_none (arg : String)
    (h : ¬ (arg = "[]uint8" ∨ arg = "[]byte" ∨ arg = "string" ∨ arg = "int" ∨ arg = "int8" ∨
      arg = "int16" ∨ arg = "int32" ∨ arg = "int64" ∨ arg = "uint" ∨ arg = "uint8" ∨
      arg = "uint16" ∨ arg = "uint32" ∨ arg = "uint64" ∨ arg = "rune" ∨ arg = "float32" ∨
      arg = "float64" ∨ arg = "bool")) : switchOp arg = none := by
  simp only [not_or] at h
  obtain ⟨h1, h2, h3, h4, h5, h6, h7, h8, h9, h10, h11, h12, h13, h14, h15, h16, h17⟩ := h
  simp [switchOp, switchTable, List.lookup, beq_eq_false_iff_ne.mpr, *]

/-- The `switch` statement of the encoder is its table: the operation of the tag is
called, and the token of its value written; a tag outside the table reaches the default
case. -/
theorem switchArg_eq {σ : Type} (c : Consumer σ) (ff : FloatFmt) (n i : Nat)
    (arg : String) (b : GoString) (s : σ) :
    switchArg c ff n i arg b s =
      match switchOp arg with
      | none => (s, .error (.message "Fuzzer uses unsupported type"))
      | some op =>
        match c.call op s with
        | (.error err, s') => (s', .error (.error err))
        | (.ok v, s') => (s', .ok (writeSep (b ++ switchToken ff arg v) i n)) := by
  unfold switchArg
  split
  case h_18 h1 h2 h3 h4 h5 h6 h7 h8 h9 h10 h11 h12 h13 h14 h15 h16 h17 =>
    have : switchOp arg = none := by
      apply switchOp_eq_none
      simp only [not_or]
      exact ⟨h1, h2, h3, h4, h5, h6, h7, h8, h9, h10, h11, h12, h13, h14, h15, h16, h17⟩
    simp [this]
  all_goals
    simp only [switchOp, switchTable, List.lookup, Consumer.call]
    split <;> simp_all [switchToken, Except.map, lit_append_left]

theorem encodeLoop_cons {σ : Type} (c : Consumer σ) (ff : FloatFmt) (n i : Nat)
    (arg : String) (rest : List String) (b : GoString) (s : σ) (out : List Nat) :
    encodeLoop c ff n i (arg :: rest) b s out =
      match switchOp arg with
      | none => ⟨some s, out ++ [i], .error (.message "Fuzzer uses unsupported type")⟩
      | some op =>
        match c.call op s with
        | (.error err, s') => ⟨some s', out ++ [i], .error (.error err)⟩
        | (.ok v, s') =>
          encodeLoop c ff n (i + 1) rest (writeSep (b ++ switchToken ff arg v) i n) s'
            (out ++ [i]) := by
  rw [encodeLoop, switchArg_eq]
  cases switchOp arg with
  | none => rfl
  | some op =>
    simp only
    rcases c.call op s with ⟨_ | _, _⟩ <;> rfl

theorem intercalate_cons_cons (sep x y : GoString) (l : List GoString) :
    List.intercalate sep (x :: y :: l) = x ++ sep ++ List.intercalate sep (y :: l) := by
  simp [List.intercalate]

theorem decodeAll_cons_eq_some {σ : Type} (c : Consumer σ) (ff : FloatFmt) (arg : String)
    (rest : List String) (s : σ) (tokens : List GoString) (final : σ) :
    decodeAll c ff (arg :: rest) s = some (tokens, final) ↔
      ∃ op v s' toks, switchOp arg = some op ∧ c.call op s = (.ok v, s') ∧
        decodeAll c ff rest s' = some (toks, final) ∧ tokens = switchToken ff arg v :: toks := by
  cases hop : switchOp arg with
  | none => simp [decodeAll, hop]
  | some op =>
    rcases hcall : c.call op s with ⟨err | v, s'⟩
    · simp [decodeAll, hop, hcall]
    · cases hrest : decodeAll c ff rest s' with
      | none => simp [decodeAll, hop, hcall, hrest]
      | some r =>
        obtain ⟨toks, fin⟩ := r
        simp only [decodeAll, hop, hcall, hrest, Option.some.injEq, Prod.mk.injEq,
          exists_and_left, exists_eq_left']
        constructor
        · rintro ⟨h1, h2⟩
          exact ⟨v, s', ⟨rfl, rfl⟩, toks, by simp [hrest, h2], h1.symm⟩
        · rintro ⟨v', s'', ⟨hv, hs⟩, toks', h3, h4⟩
          cases hv; subst hs
          rw [hrest] at h3
          simp only [Option.some.injEq, Prod.mk.injEq] at h3
          exact ⟨by rw [h4, h3.1], h3.2⟩

theorem decodeAll_length {σ : Type} (c : Consumer σ) (ff : FloatFmt) :
    ∀ (args : List String) (s : σ) (tokens : List GoString) (final : σ),
      decodeAll c ff args s = some (tokens, final) → tokens.length = args.length := by
  intro args
  induction args with
  | nil => intro s tokens final h; simp [decodeAll] at h; simp [h.1.symm]
  | cons arg rest ih =>
    intro s tokens final h
    obtain ⟨op, v, s', toks, -, -, hrest, rfl⟩ := (decodeAll_cons_eq_some ..).mp h
    simp [ih _ _ _ hrest]

/-- When the table decodes all the tags left, the loop returns the builder followed by
the tokens joined by newlines, and leaves the cursor in the last state. -/
theorem encodeLoop_ok {σ : Type} (c : Consumer σ) (ff : FloatFmt) (n : Nat) :
    ∀ (rest : List String) (i : Nat) (b : GoString) (s : σ) (out : List Nat)
      (tokens : List GoString) (final : σ),
      i + rest.length = n → decodeAll c ff rest s = some (tokens, final) →
      encodeLoop c ff n i rest b s out =
        ⟨some final, out ++ List.range' i rest.length,
          .ok (b ++ List.intercalate (lit "\n") tokens)⟩ := by
  intro rest
  induction rest with
  | nil =>
    intro i b s out tokens final _ h
    simp only [decodeAll, Option.some.injEq, Prod.mk.injEq] at h
    simp [encodeLoop, ← h.1, h.2, List.intercalate]
  | cons arg rest ih =>
    intro i b s out tokens final hn h
    obtain ⟨op, v, s', toks, hop, hcall, hrest, rfl⟩ := (decodeAll_cons_eq_some ..).mp h
    rw [encodeLoop_cons, hop]
    simp only [hcall]
    have hlen := decodeAll_length c ff _ _ _ _ hrest
    rw [ih (i + 1) _ s' _ toks final (by simp at hn; omega) hrest]
    simp only [List.length_cons] at hn
    congr 1
    · simp [List.range'_succ]
    · congr 1
      cases toks with
      | nil =>
        have : rest.length = 0 := by simpa using hlen.symm
        have hi : i = n - 1 := by omega
        simp [writeSep, hi, List.intercalate]
      | cons t ts =>
        have : rest.length ≠ 0 := by simp at hlen; omega
        have hi : i ≠ n - 1 := by omega
        simp [writeSep, hi, intercalate_cons_cons]

/-- When the table fails to decode the tags left, the loop panics. -/
theorem encodeLoop_error {σ : Type} (c : Consumer σ) (ff : FloatFmt) (n : Nat) :
    ∀ (rest : List String) (i : Nat) (b : GoString) (s : σ) (out : List Nat),
      decodeAll c ff rest s = none →
      ∃ p, (encodeLoop c ff n i rest b s out).result = .error p := by
  intro rest
  induction rest with
  | nil => intro i b s out h; simp [decodeAll] at h
  | cons arg rest ih =>
    intro i b s out h
    rw [encodeLoop_cons]
    simp only [decodeAll] at h
    cases hop : switchOp arg with
    | none => exact ⟨_, rfl⟩
    | some op =>
      rw [hop] at h
      simp only at h ⊢
      rcases hcall : c.call op s with ⟨err | v, s'⟩
      · exact ⟨_, rfl⟩
      · rw [hcall] at h
        simp only at h ⊢
        apply ih
        cases hrest : decodeAll c ff rest s' with
        | none => rfl
        | some r => rw [hrest] at h; simp at h

/-- The cursor of the loop is always there at the exit. -/
theorem encodeLoop_consumer_isSome {σ : Type} (c : Consumer σ) (ff : FloatFmt) (n : Nat) :
    ∀ (rest : List String) (i : Nat) (b : GoString) (s : σ) (out : List Nat),
      ∃ s', (encodeLoop c ff n i rest b s out).consumer = some s' := by
  intro rest
  induction rest with
  | nil => intro i b s out; exact ⟨s, rfl⟩
  | cons arg rest ih =>
    intro i b s out
    rw [encodeLoop_cons]
    cases switchOp arg with
    | none => exact ⟨_, rfl⟩
    | some op =>
      simp only
      rcases c.call op s with ⟨err | v, s'⟩
      · exact ⟨_, rfl⟩
      · exact ih _ _ _ _

theorem stateAfter_cons_some {σ : Type} (c : Consumer σ) (arg : String) (op : CursorOp)
    (rest : List String) (s : σ) (h : switchOp arg = some op) :
    stateAfter c (arg :: rest) s = stateAfter c rest (c.call op s).2 := by
  simp [stateAfter, h]

/-- What a successful decoding by the table consists of: parameter `k` is decoded by
the operation of its tag on the state that the earlier operations left, and token `k` is
the token that the case of its tag writes for the value. -/
theorem decodeAll_chain {σ : Type} (c : Consumer σ) (ff : FloatFmt) :
    ∀ (args : List String) (s : σ) (tokens : List GoString) (final : σ),
      decodeAll c ff args s = some (tokens, final) →
      final = stateAfter c args s ∧
      ∀ k tag, args[k]? = some tag → ∃ op v, switchOp tag = some op ∧
        c.call op (stateAfter c (args.take k) s) =
          (.ok v, stateAfter c (args.take (k + 1)) s) ∧
        tokens[k]? = some (switchToken ff tag v) := by
  intro args
  induction args with
  | nil =>
    intro s tokens final h
    simp only [decodeAll, Option.some.injEq, Prod.mk.injEq] at h
    simp [stateAfter, h.2]
  | cons arg rest ih =>
    intro s tokens final h
    obtain ⟨op, v, s', toks, hop, hcall, hrest, rfl⟩ := (decodeAll_cons_eq_some ..).mp h
    obtain ⟨hfin, hchain⟩ := ih s' toks final hrest
    have hs' : (c.call op s).2 = s' := by rw [hcall]
    refine ⟨by rw [stateAfter_cons_some c arg op rest s hop, hs', hfin], ?_⟩
    intro k tag hk
    cases k with
    | zero =>
      simp only [List.getElem?_cons_zero, Option.some.injEq] at hk
      subst hk
      refine ⟨op, v, hop, ?_, by simp⟩
      simp [stateAfter, hop, hcall]
    | succ k =>
      simp only [List.getElem?_cons_succ] at hk
      obtain ⟨op', v', hop', hcall', htok⟩ := hchain k tag hk
      refine ⟨op', v', hop', ?_, by simpa using htok⟩
      simp only [List.take_succ_cons]
      rw [stateAfter_cons_some c arg op _ s hop, stateAfter_cons_some c arg op _ s hop, hs']
      exact hcall'

/-- The hypothesis of the claims, that every operation succeeds, is what makes the
table decode the whole signature. -/
theorem decodeAll_of_allSucceed {σ : Type} (c : Consumer σ) (ff : FloatFmt) :
    ∀ (args : List String) (s : σ), AllSucceed c args s →
      ∃ tokens final, decodeAll c ff args s = some (tokens, final) := by
  intro args
  induction args with
  | nil => intro s _; exact ⟨[], s, rfl⟩
  | cons arg rest ih =>
    intro s h
    obtain ⟨op, v, hop, hv⟩ := h 0 arg (by simp)
    simp only [List.take_zero, stateAfter] at hv
    have hrest : AllSucceed c rest (c.call op s).2 := by
      intro k tag hk
      obtain ⟨op', v', hop', hv'⟩ := h (k + 1) tag (by simpa using hk)
      simp only [List.take_succ_cons] at hv'
      rw [stateAfter_cons_some c arg op _ s hop] at hv'
      exact ⟨op', v', hop', hv'⟩
    obtain ⟨toks, final, hdec⟩ := ih _ hrest
    refine ⟨switchToken ff arg v :: toks, final, ?_⟩
    rw [decodeAll_cons_eq_some]
    refine ⟨op, v, (c.call op s).2, toks, hop, ?_, hdec, rfl⟩
    rw [← hv]

theorem allSucceed_of_decodeAll {σ : Type} (c : Consumer σ) (ff : FloatFmt)
    (args : List String) (s : σ) (tokens : List GoString) (final : σ)
    (h : decodeAll c ff args s = some (tokens, final)) : AllSucceed c args s := by
  intro k tag hk
  obtain ⟨op, v, hop, hcall, -⟩ := (decodeAll_chain c ff args s tokens final h).2 k tag hk
  exact ⟨op, v, hop, by rw [hcall]⟩

/-! ## The traced cursor -/

theorem traced_call {σ : Type} (c : Consumer σ) (op : CursorOp) (s : σ)
    (log : List CursorOp) :
    c.traced.call op (s, log) = ((c.call op s).1, ((c.call op s).2, log ++ [op])) := by
  cases op <;> rfl

/-- A run on the traced cursor is the run on the cursor itself, with the operations
invoked appended to the log. -/
theorem encodeLoop_traced {σ : Type} (c : Consumer σ) (ff : FloatFmt) (n : Nat) :
    ∀ (rest : List String) (i : Nat) (b : GoString) (s : σ) (log : List CursorOp)
      (out : List Nat),
      encodeLoop c.traced ff n i rest b (s, log) out =
        ⟨(encodeLoop c ff n i rest b s out).consumer.map
            (fun s' => (s', log ++ callsOf c rest s)),
          (encodeLoop c ff n i rest b s out).stdout,
          (encodeLoop c ff n i rest b s out).result⟩ := by
  intro rest
  induction rest with
  | nil => intro i b s log out; simp [encodeLoop, callsOf]
  | cons arg rest ih =>
    intro i b s log out
    rw [encodeLoop_cons, encodeLoop_cons]
    cases hop : switchOp arg with
    | none => simp [callsOf, hop]
    | some op =>
      simp only [traced_call]
      rcases hcall : c.call op s with ⟨err | v, s'⟩
      · simp [callsOf, hop, hcall]
      · simp only [callsOf, hop, hcall]
        rw [ih]
        simp

theorem callsOf_initial {σ : Type} (c : Consumer σ) :
    ∀ (args : List String) (s : σ), callsOf c args s <+: args.filterMap switchOp := by
  intro args
  induction args with
  | nil => intro s; simp [callsOf]
  | cons arg rest ih =>
    intro s
    cases hop : switchOp arg with
    | none => simp [callsOf, hop]
    | some op =>
      rcases hcall : c.call op s with ⟨err | v, s'⟩
      · simp [callsOf, hop, hcall, List.filterMap_cons]
      · simp only [callsOf, hop, hcall, List.filterMap_cons]
        exact (List.prefix_cons_inj op).mpr (ih s')

theorem callsOf_of_decodeAll {σ : Type} (c : Consumer σ) (ff : FloatFmt) :
    ∀ (args : List String) (s : σ) (tokens : List GoString) (final : σ),
      decodeAll c ff args s = some (tokens, final) →
      callsOf c args s = args.filterMap switchOp := by
  intro args
  induction args with
  | nil => intro s tokens final _; simp [callsOf]
  | cons arg rest ih =>
    intro s tokens final h
    obtain ⟨op, v, s', toks, hop, hcall, hrest, -⟩ := (decodeAll_cons_eq_some ..).mp h
    simp [callsOf, hop, hcall, List.filterMap_cons, ih s' toks final hrest]

/-- No operation is invoked for a tag without a case, nor for the tags after it. -/
theorem callsOf_append_outside {σ : Type} (c : Consumer σ) (bad : String)
    (post : List String) (hbad : switchOp bad = none) :
    ∀ (pre : List String) (s : σ), callsOf c (pre ++ bad :: post) s = callsOf c pre s := by
  intro pre
  induction pre with
  | nil => intro s; simp [callsOf, hbad]
  | cons arg rest ih =>
    intro s
    cases hop : switchOp arg with
    | none => simp [callsOf, hop]
    | some op =>
      rcases hcall : c.call op s with ⟨err | v, s'⟩
      · simp [callsOf, hop, hcall]
      · simp [callsOf, hop, hcall, ih s']

theorem decodeAll_none_of_mem_outside {σ : Type} (c : Consumer σ) (ff : FloatFmt)
    (bad : String) (hbad : switchOp bad = none) :
    ∀ (args : List String) (s : σ), bad ∈ args → decodeAll c ff args s = none := by
  intro args
  induction args with
  | nil => intro s h; simp at h
  | cons arg rest ih =>
    intro s h
    cases hd : decodeAll c ff (arg :: rest) s with
    | none => rfl
    | some r =>
      obtain ⟨tokens, final⟩ := r
      obtain ⟨op, v, s', toks, hop, hcall, hrest, -⟩ := (decodeAll_cons_eq_some ..).mp hd
      rcases List.mem_cons.mp h with rfl | hmem
      · rw [hbad] at hop; cases hop
      · rw [ih s' hmem] at hrest; cases hrest

/-! ## The walk of a body without a call of `f.Fuzz` -/

theorem Visit_expr_of_not_fuzz (w : BodyWalker) (e : Expr)
    (h : ∀ Fun Args, e = .CallExpr Fun Args → isFuzzSelector Fun = false) :
    w.Visit (.Expr e) = .ok w := by
  cases e with
  | CallExpr Fun Args =>
    have hf := h Fun Args rfl
    cases Fun with
    | SelectorExpr X Sel =>
      cases X with
      | Ident Name =>
        simp only [isFuzzSelector, decide_eq_false_iff_not] at hf
        simp [BodyWalker.Visit, hf]
      | _ => rfl
    | _ => rfl
  | _ => rfl

theorem Visit_stmt (w : BodyWalker) (s : Stmt) : w.Visit (.Stmt s) = .ok w := rfl

theorem Visit_field (w : BodyWalker) (f : Field) : w.Visit (.Field f) = .ok w := rfl

theorem Visit_nil (w : BodyWalker) : w.Visit .nil = .ok w := rfl

mutual
theorem walkExpr_of_no_fuzz (w : BodyWalker) :
    ∀ e : Expr, hasFuzzCallExpr e = false → walkExpr w e = .ok w
  | .Ident _, _ => by
    rw [walkExpr, Visit_expr_of_not_fuzz w _ (by simp)]; rfl
  | .BasicLit _, _ => by
    rw [walkExpr, Visit_expr_of_not_fuzz w _ (by simp)]; rfl
  | .SelectorExpr X _, h => by
    simp only [hasFuzzCallExpr] at h
    rw [walkExpr, Visit_expr_of_not_fuzz w _ (by simp)]
    simp only [walkExpr_of_no_fuzz w X h, Except.bind, Visit_nil]
  | .CallExpr Fun Args, h => by
    simp only [hasFuzzCallExpr, Bool.or_eq_false_iff] at h
    rw [walkExpr, Visit_expr_of_not_fuzz w _ (by
      intro F A hFA; cases hFA; exact h.1.1)]
    simp only [walkExpr_of_no_fuzz w Fun h.1.2, walkExprs_of_no_fuzz w Args h.2, Except.bind,
      Visit_nil]
  | .FuncLit Params Results Body, h => by
    simp only [hasFuzzCallExpr, Bool.or_eq_false_iff] at h
    rw [walkExpr, Visit_expr_of_not_fuzz w _ (by simp)]
    simp only [walkFields_of_no_fuzz w Params h.1.1, walkFields_of_no_fuzz w Results h.1.2,
      walkStmts_of_no_fuzz w Body h.2, Except.bind, Visit_nil]
  | .ArrayType Len Elt, h => by
    simp only [hasFuzzCallExpr, Bool.or_eq_false_iff] at h
    rw [walkExpr, Visit_expr_of_not_fuzz w _ (by simp)]
    simp only [walkExprOpt_of_no_fuzz w Len h.1, walkExpr_of_no_fuzz w Elt h.2, Except.bind,
      Visit_nil]
  | .StarExpr X, h => by
    simp only [hasFuzzCallExpr] at h
    rw [walkExpr, Visit_expr_of_not_fuzz w _ (by simp)]
    simp only [walkExpr_of_no_fuzz w X h, Except.bind, Visit_nil]
  | .StructType Fields, h => by
    simp only [hasFuzzCallExpr] at h
    rw [walkExpr, Visit_expr_of_not_fuzz w _ (by simp)]
    simp only [walkFields_of_no_fuzz w Fields h, Except.bind, Visit_nil]
  | .UnaryExpr _ X, h => by
    simp only [hasFuzzCallExpr] at h
    rw [walkExpr, Visit_expr_of_not_fuzz w _ (by simp)]
    simp only [walkExpr_of_no_fuzz w X h, Except.bind, Visit_nil]
  | .BinaryExpr X _ Y, h => by
    simp only [hasFuzzCallExpr, Bool.or_eq_false_iff] at h
    rw [walkExpr, Visit_expr_of_not_fuzz w _ (by simp)]
    simp only [walkExpr_of_no_fuzz w X h.1, walkExpr_of_no_fuzz w Y h.2, Except.bind,
      Visit_nil]
theorem walkExprOpt_of_no_fuzz (w : BodyWalker) :
    ∀ o : Option Expr, hasFuzzCallExprOpt o = false → walkExprOpt w o = .ok w
  | none, _ => by rw [walkExprOpt]
  | some e, h => by
    simp only [hasFuzzCallExprOpt] at h
    rw [walkExprOpt, walkExpr_of_no_fuzz w e h]
theorem walkExprs_of_no_fuzz (w : BodyWalker) :
    ∀ l : List Expr, hasFuzzCallExprs l = false → walkExprs w l = .ok w
  | [], _ => by rw [walkExprs]
  | e :: rest, h => by
    simp only [hasFuzzCallExprs, Bool.or_eq_false_iff] at h
    rw [walkExprs]
    simp only [walkExpr_of_no_fuzz w e h.1, walkExprs_of_no_fuzz w rest h.2, Except.bind]
theorem walkField_of_no_fuzz (w : BodyWalker) :
    ∀ f : Field, hasFuzzCallField f = false → walkField w f = .ok w
  | .mk _ Typ, h => by
    simp only [hasFuzzCallField] at h
    rw [walkField]
    simp only [Visit_field, Visit_nil, walkExpr_of_no_fuzz w Typ h, Except.bind]
theorem walkFields_of_no_fuzz (w : BodyWalker) :
    ∀ l : List Field, hasFuzzCallFields l = false → walkFields w l = .ok w
  | [], _ => by rw [walkFields]
  | f :: rest, h => by
    simp only [hasFuzzCallFields, Bool.or_eq_false_iff] at h
    rw [walkFields]
    simp only [walkField_of_no_fuzz w f h.1, walkFields_of_no_fuzz w rest h.2, Except.bind]
theorem walkStmt_of_no_fuzz (w : BodyWalker) :
    ∀ s : Stmt, hasFuzzCallStmt s = false → walkStmt w s = .ok w
  | .ExprStmt X, h => by
    simp only [hasFuzzCallStmt] at h
    rw [walkStmt]
    simp only [Visit_stmt, Visit_nil, walkExpr_of_no_fuzz w X h, Except.bind]
  | .AssignStmt Lhs _ Rhs, h => by
    simp only [hasFuzzCallStmt, Bool.or_eq_false_iff] at h
    rw [walkStmt]
    simp only [Visit_stmt, Visit_nil, walkExprs_of_no_fuzz w Lhs h.1,
      walkExprs_of_no_fuzz w Rhs h.2, Except.bind]
  | .ReturnStmt Results, h => by
    simp only [hasFuzzCallStmt] at h
    rw [walkStmt]
    simp only [Visit_stmt, Visit_nil, walkExprs_of_no_fuzz w Results h, Except.bind]
  | .BlockStmt List, h => by
    simp only [hasFuzzCallStmt] at h
    rw [walkStmt]
    simp only [Visit_stmt, Visit_nil, walkStmts_of_no_fuzz w List h, Except.bind]
  | .IfStmt Cond Body Else, h => by
    simp only [hasFuzzCallStmt, Bool.or_eq_false_iff] at h
    rw [walkStmt]
    simp only [Visit_stmt, Visit_nil, walkExpr_of_no_fuzz w Cond h.1.1,
      walkStmts_of_no_fuzz w Body h.1.2, walkStmtOpt_of_no_fuzz w Else h.2, Except.bind]
  | .DeferStmt Call, h => by
    simp only [hasFuzzCallStmt] at h
    rw [walkStmt]
    simp only [Visit_stmt, Visit_nil, walkExpr_of_no_fuzz w Call h, Except.bind]
theorem walkStmtOpt_of_no_fuzz (w : BodyWalker) :
    ∀ o : Option Stmt, hasFuzzCallStmtOpt o = false → walkStmtOpt w o = .ok w
  | none, _ => by rw [walkStmtOpt]
  | some s, h => by
    simp only [hasFuzzCallStmtOpt] at h
    rw [walkStmtOpt, walkStmt_of_no_fuzz w s h]
theorem walkStmts_of_no_fuzz (w : BodyWalker) :
    ∀ l : List Stmt, hasFuzzCallStmts l = false → walkStmts w l = .ok w
  | [], _ => by rw [walkStmts]
  | s :: rest, h => by
    simp only [hasFuzzCallStmts, Bool.or_eq_false_iff] at h
    rw [walkStmts]
    simp only [walkStmt_of_no_fuzz w s h.1, walkStmts_of_no_fuzz w rest h.2, Except.bind]
end

/-! ## The whole encoder -/

theorem libFuzzerSeedToGoSeed_ok {σ : Type} (c : Consumer σ) (ff : FloatFmt)
    (testcase : List Nat) (args : List String) (tokens : List GoString) (final : σ)
    (h : decodeAll c ff args (c.NewConsumer testcase) = some (tokens, final)) :
    libFuzzerSeedToGoSeed c ff testcase args =
      ⟨some final, List.range' 0 args.length,
        .ok (lit "go test fuzz v1\n" ++ List.intercalate (lit "\n") tokens)⟩ := by
  unfold libFuzzerSeedToGoSeed
  rw [encodeLoop_ok c ff args.length args 0 _ _ _ tokens final (by simp) h]
  simp

theorem libFuzzerSeedToGoSeed_error {σ : Type} (c : Consumer σ) (ff : FloatFmt)
    (testcase : List Nat) (args : List String)
    (h : decodeAll c ff args (c.NewConsumer testcase) = none) :
    ∃ p, (libFuzzerSeedToGoSeed c ff testcase args).result = .error p :=
  encodeLoop_error c ff args.length args 0 _ _ _ h

theorem libFuzzerSeedToGoSeed_traced {σ : Type} (c : Consumer σ) (ff : FloatFmt)
    (testcase : List Nat) (args : List String) :
    (libFuzzerSeedToGoSeed c.traced ff testcase args).calls =
        callsOf c args (c.NewConsumer testcase) ∧
      (libFuzzerSeedToGoSeed c.traced ff testcase args).result =
        (libFuzzerSeedToGoSeed c ff testcase args).result := by
  unfold libFuzzerSeedToGoSeed
  have hnew : c.traced.NewConsumer testcase = (c.NewConsumer testcase, []) := rfl
  rw [hnew, encodeLoop_traced]
  obtain ⟨s', hs'⟩ := encodeLoop_consumer_isSome c ff args.length args 0
    (lit "go test fuzz v1\n") (c.NewConsumer testcase) []
  simp [Exit.calls, hs']

theorem map_switchOp_of_decodeAll {σ : Type} (c : Consumer σ) (ff : FloatFmt) :
    ∀ (args : List String) (s : σ) (tokens : List GoString) (final : σ),
      decodeAll c ff args s = some (tokens, final) →
      (args.filterMap switchOp).map some = args.map switchOp := by
  intro args
  induction args with
  | nil => intro s tokens final _; rfl
  | cons arg rest ih =>
    intro s tokens final h
    obtain ⟨op, v, s', toks, hop, hcall, hrest, -⟩ := (decodeAll_cons_eq_some ..).mp h
    simp [List.filterMap_cons, hop, ih s' toks final hrest]

/-- When the tags before a tag without a case are all decoded, the loop reaches the
default case of the `switch` and panics with its message. -/
theorem encodeLoop_append_outside {σ : Type} (c : Consumer σ) (ff : FloatFmt) (n : Nat)
    (bad : String) (post : List String) (hbad : switchOp bad = none) :
    ∀ (pre : List String) (i : Nat) (b : GoString) (s : σ) (out : List Nat)
      (tokens : List GoString) (final : σ),
      decodeAll c ff pre s = some (tokens, final) →
      (encodeLoop c ff n i (pre ++ bad :: post) b s out).result =
        .error (.message "Fuzzer uses unsupported type") := by
  intro pre
  induction pre with
  | nil =>
    intro i b s out tokens final _
    simp [encodeLoop_cons, hbad]
  | cons arg rest ih =>
    intro i b s out tokens final h
    obtain ⟨op, v, s', toks, hop, hcall, hrest, -⟩ := (decodeAll_cons_eq_some ..).mp h
    rw [List.cons_append, encodeLoop_cons, hop]
    simp only [hcall]
    exact ih _ _ s' _ toks final hrest

/-! ## The catalog and the cases of the `switch` -/

theorem catalogOp_eq_none (arg : String)
    (h : ¬ (arg = "[]uint8" ∨ arg = "[]byte" ∨ arg = "string" ∨ arg = "int" ∨ arg = "int8" ∨
      arg = "int16" ∨ arg = "int32" ∨ arg = "int64" ∨ arg = "uint" ∨ arg = "uint8" ∨
      arg = "uint16" ∨ arg = "uint32" ∨ arg = "uint64" ∨ arg = "rune" ∨ arg = "float32" ∨
      arg = "float64" ∨ arg = "bool")) : catalogOp arg = none := by
  simp only [not_or] at h
  obtain ⟨h1, h2, h3, h4, h5, h6, h7, h8, h9, h10, h11, h12, h13, h14, h15, h16, h17⟩ := h
  simp [catalogOp, catalogTable, List.lookup, beq_eq_false_iff_ne.mpr, *]

/-- The cases of the `switch` are the tags of the catalog and the tag `uint`: a tag
reaches the default case when it is outside the catalog and is not `uint`. -/
theorem switchOp_eq_none_iff (tag : String) :
    switchOp tag = none ↔ catalogOp tag = none ∧ tag ≠ "uint" := by
  by_cases h : (tag = "[]uint8" ∨ tag = "[]byte" ∨ tag = "string" ∨ tag = "int" ∨
      tag = "int8" ∨ tag = "int16" ∨ tag = "int32" ∨ tag = "int64" ∨ tag = "uint" ∨
      tag = "uint8" ∨ tag = "uint16" ∨ tag = "uint32" ∨ tag = "uint64" ∨ tag = "rune" ∨
      tag = "float32" ∨ tag = "float64" ∨ tag = "bool")
  · rcases h with rfl | rfl | rfl | rfl | rfl | rfl | rfl | rfl | rfl | rfl | rfl | rfl |
      rfl | rfl | rfl | rfl | rfl <;> decide
  · have h1 := switchOp_eq_none tag h
    have h2 := catalogOp_eq_none tag h
    have h3 : tag ≠ "uint" := fun hu => h (by simp [hu])
    simp [h1, h2, h3]

/-- Every tag of the catalog has a case in the `switch`, which calls the operation that
the catalog designates. -/
theorem switchOp_of_catalogOp (tag : String) (op : CursorOp)
    (h : catalogOp tag = some op) : switchOp tag = some op := by
  by_cases hc : (tag = "[]uint8" ∨ tag = "[]byte" ∨ tag = "string" ∨ tag = "int" ∨
      tag = "int8" ∨ tag = "int16" ∨ tag = "int32" ∨ tag = "int64" ∨ tag = "uint" ∨
      tag = "uint8" ∨ tag = "uint16" ∨ tag = "uint32" ∨ tag = "uint64" ∨ tag = "rune" ∨
      tag = "float32" ∨ tag = "float64" ∨ tag = "bool")
  · have hsame : catalogOp tag = none ∨ catalogOp tag = switchOp tag := by
      rcases hc with rfl | rfl | rfl | rfl | rfl | rfl | rfl | rfl | rfl | rfl | rfl |
        rfl | rfl | rfl | rfl | rfl | rfl <;> decide
    rcases hsame with hn | he
    · rw [hn] at h; cases h
    · rw [← he]; exact h
  · rw [catalogOp_eq_none tag hc] at h
    cases h

/-- Off the tag `uint`, the catalog and the `switch` designate the same operation. -/
theorem catalogOp_eq_switchOp (tag : String) (h : tag ≠ "uint") :
    catalogOp tag = switchOp tag := by
  by_cases hc : (tag = "[]uint8" ∨ tag = "[]byte" ∨ tag = "string" ∨ tag = "int" ∨
      tag = "int8" ∨ tag = "int16" ∨ tag = "int32" ∨ tag = "int64" ∨ tag = "uint" ∨
      tag = "uint8" ∨ tag = "uint16" ∨ tag = "uint32" ∨ tag = "uint64" ∨ tag = "rune" ∨
      tag = "float32" ∨ tag = "float64" ∨ tag = "bool")
  · have hsame : tag = "uint" ∨ catalogOp tag = switchOp tag := by
      rcases hc with rfl | rfl | rfl | rfl | rfl | rfl | rfl | rfl | rfl | rfl | rfl |
        rfl | rfl | rfl | rfl | rfl | rfl <;> decide
    exact hsame.resolve_left h
  · rw [catalogOp_eq_none tag hc, switchOp_eq_none tag hc]

/-- The operation of the first parameter is invoked whenever its tag has a case. -/
theorem callsOf_ne_nil {σ : Type} (c : Consumer σ) (tag : String) (rest : List String)
    (s : σ) (h : switchOp tag ≠ none) : callsOf c (tag :: rest) s ≠ [] := by
  cases hop : switchOp tag with
  | none => exact absurd hop h
  | some op =>
    rcases hcall : c.call op s with ⟨err | v, s'⟩ <;> simp [callsOf, hop, hcall]

/-! ## The walk of the declarations -/

theorem walkDecls_of_no_fuzz (fuzzerName : String) :
    ∀ (decls : List Decl),
      (∀ d ∈ decls, d.isNamed fuzzerName = true →
        ∃ body, d.Body = some body ∧ hasFuzzCallStmts body = false) →
      walkDecls { args := [], fuzzerName := fuzzerName } decls =
        .ok { args := [], fuzzerName := fuzzerName } := by
  intro decls
  induction decls with
  | nil => intro _; rfl
  | cons d rest ih =>
    intro h
    have hd := h d (by simp)
    have hrest := ih (fun d' hd' => h d' (by simp [hd']))
    cases d with
    | GenDecl Tok Values => simpa [walkDecls, Walker.Visit] using hrest
    | FuncDecl Recv Name Params Results Body =>
      by_cases hname : Name = fuzzerName
      · obtain ⟨body, hbody, hno⟩ := hd (by simp [Decl.isNamed, hname])
        simp only [Decl.Body] at hbody
        subst hbody
        simp only [walkDecls, Walker.Visit, hname, if_true, walkBody,
          walkStmts_of_no_fuzz _ body hno]
        exact hrest
      · simpa [walkDecls, Walker.Visit, hname] using hrest

/-! ## The claims -/

/-- C1: for a signature whose tags all have a case in the `switch`, as every tag of the
catalog has, and a buffer on which every cursor operation succeeds,
`libFuzzerSeedToGoSeed` returns the marker line `go test fuzz v1`, a newline, and then
the tokens of the parameters, in signature order and joined by single newlines, with no
newline after the last token. -/
theorem C1_marker_then_joined_tokens {σ : Type} (c : Consumer σ) (ff : FloatFmt)
    (testcase : List Nat) (args : List String) (hne : args ≠ [])
    (hall : AllSucceed c args (c.NewConsumer testcase)) :
    ∃ tokens final, decodeAll c ff args (c.NewConsumer testcase) = some (tokens, final) ∧
      tokens.length = args.length ∧ tokens ≠ [] ∧
      (libFuzzerSeedToGoSeed c ff testcase args).result =
        .ok (lit "go test fuzz v1" ++ lit "\n" ++ List.intercalate (lit "\n") tokens) := by
  obtain ⟨tokens, final, hdec⟩ := decodeAll_of_allSucceed c ff args _ hall
  have hlen := decodeAll_length c ff _ _ _ _ hdec
  refine ⟨tokens, final, hdec, hlen, ?_, ?_⟩
  · intro ht
    rw [ht] at hlen
    exact hne (List.length_eq_zero.mp hlen.symm)
  · rw [libFuzzerSeedToGoSeed_ok c ff testcase args tokens final hdec, ← lit_append]
    rfl

/-- Witness of C1: the signature `[]byte, int, bool` on the buffer `2 'h' 'i' 7 1`. -/
theorem C1_marker_then_joined_tokens_witness :
    (["[]byte", "int", "bool"] : List String) ≠ [] ∧
    AllSucceed byteCursor ["[]byte", "int", "bool"]
      (byteCursor.NewConsumer [2, 104, 105, 7, 1]) ∧
    ∃ tokens final,
      decodeAll byteCursor zeroFloatFmt ["[]byte", "int", "bool"]
        (byteCursor.NewConsumer [2, 104, 105, 7, 1]) = some (tokens, final) ∧
      tokens.length = (["[]byte", "int", "bool"] : List String).length ∧ tokens ≠ [] ∧
      (libFuzzerSeedToGoSeed byteCursor zeroFloatFmt [2, 104, 105, 7, 1]
        ["[]byte", "int", "bool"]).result =
        .ok (lit "go test fuzz v1" ++ lit "\n" ++ List.intercalate (lit "\n") tokens) :=
  ⟨by decide,
    allSucceed_of_decodeAll byteCursor zeroFloatFmt _ _
      [lit "[]byte(\"hi\")", lit "int(7)", lit "bool(true)"] [] (by decide),
    C1_marker_then_joined_tokens byteCursor zeroFloatFmt [2, 104, 105, 7, 1]
      ["[]byte", "int", "bool"] (by decide)
      (allSucceed_of_decodeAll byteCursor zeroFloatFmt _ _
        [lit "[]byte(\"hi\")", lit "int(7)", lit "bool(true)"] [] (by decide))⟩

/-- The encoder decodes in signature order on one cursor: when every operation succeeds,
the call returns the marker followed by one token per parameter; token `k` is the token
that the case of tag `k` writes for the value that its operation returns on the state
left by the operations of the parameters before it; the cursor ends in the state after
all of them, and the operations invoked are one per parameter, in signature order. -/
theorem encoder_threads_one_cursor {σ : Type} (c : Consumer σ) (ff : FloatFmt)
    (testcase : List Nat) (args : List String)
    (hall : AllSucceed c args (c.NewConsumer testcase)) :
    ∃ tokens : List GoString,
      (libFuzzerSeedToGoSeed c ff testcase args).result =
        .ok (lit "go test fuzz v1\n" ++ List.intercalate (lit "\n") tokens) ∧
      tokens.length = args.length ∧
      (∀ k tag, args[k]? = some tag → ∃ op v, switchOp tag = some op ∧
        c.call op (stateAfter c (args.take k) (c.NewConsumer testcase)) =
          (.ok v, stateAfter c (args.take (k + 1)) (c.NewConsumer testcase)) ∧
        tokens[k]? = some (switchToken ff tag v)) ∧
      (libFuzzerSeedToGoSeed c ff testcase args).consumer =
        some (stateAfter c args (c.NewConsumer testcase)) ∧
      ((libFuzzerSeedToGoSeed c.traced ff testcase args).calls).map some =
        args.map switchOp := by
  obtain ⟨tokens, final, hdec⟩ := decodeAll_of_allSucceed c ff args _ hall
  obtain ⟨hfin, hchain⟩ := decodeAll_chain c ff args _ tokens final hdec
  refine ⟨tokens, ?_, decodeAll_length c ff _ _ _ _ hdec, hchain, ?_, ?_⟩
  · rw [libFuzzerSeedToGoSeed_ok c ff testcase args tokens final hdec]
  · rw [libFuzzerSeedToGoSeed_ok c ff testcase args tokens final hdec, hfin]
  · rw [(libFuzzerSeedToGoSeed_traced c ff testcase args).1,
      callsOf_of_decodeAll c ff args _ tokens final hdec]
    exact map_switchOp_of_decodeAll c ff args _ tokens final hdec

/-- C2 (the code at the failing input): for the signature `uint16, bool, rune` and the
buffer `1 2 0 65`, the cursor returns 258, false and the character `A`, one operation per
parameter in signature order, each on the bytes that the one before left, and the output
is the marker followed by `uint16(258)`, `bool(false)` and `rune(A)`.  The first two
tokens follow the rendering rules of their tags; the third does not follow the rule of
the tag `rune`, under which the character `A` is rendered `rune('A')`. -/
theorem C2_third_token_breaks_the_rule_of_its_tag :
    byteCursor.GetUint16 (byteCursor.NewConsumer [1, 2, 0, 65]) = (.ok 258, [0, 65]) ∧
    byteCursor.GetBool [0, 65] = (.ok false, [65]) ∧
    byteCursor.GetRune [65] = (.ok [65], []) ∧
    (libFuzzerSeedToGoSeed byteCursor.traced zeroFloatFmt [1, 2, 0, 65]
      ["uint16", "bool", "rune"]).calls = [.GetUint16, .GetBool, .GetRune] ∧
    (libFuzzerSeedToGoSeed byteCursor zeroFloatFmt [1, 2, 0, 65]
      ["uint16", "bool", "rune"]).result =
      .ok (lit "go test fuzz v1\n" ++
        List.intercalate (lit "\n") [lit "uint16(258)", lit "bool(false)", lit "rune(A)"]) ∧
    tokenFollowsRule zeroFloatFmt "uint16" (.uint 258) (lit "uint16(258)") = true ∧
    tokenFollowsRule zeroFloatFmt "bool" (.bool false) (lit "bool(false)") = true ∧
    tokenFollowsRule zeroFloatFmt "rune" (.rune [65]) (lit "rune(A)") = false ∧
    tokenFollowsRule zeroFloatFmt "rune" (.rune [65]) (lit "rune('A')") = true := by
  decide

/-- C3 (the code at the failing input): for the entry point
`func FuzzX(f *testing.F) { f.Fuzz(func(*testing.T, []byte, int) {}) }`, whose literal has
three unnamed parameters, `getFuzzArgs` returns the empty signature, while the tags of the
parameters after the first are `[]byte` and `int`.  With the same parameters named,
`(t *testing.T, a []byte, b int, c bool)`, it returns the tags of all parameters but the
first. -/
theorem C3_unnamed_parameters_are_dropped :
    getFuzzArgs (parseAs (harnessFile paramsUnnamed)) [] "FuzzX" = .ok ([], none) ∧
    specSignature paramsUnnamed = some ["[]byte", "int"] ∧
    (paramTypes paramsUnnamed).length = 3 ∧
    getFuzzArgs (parseAs (harnessFile paramsNamed)) [] "FuzzX" =
      .ok (["[]byte", "int", "bool"], none) ∧
    specSignature paramsNamed = some ["[]byte", "int", "bool"] := by
  decide

/-- C4 (counterexample): on a file without a declaration named `FuzzX`, and on a file
whose `FuzzX` has no `f.Fuzz` call, `getFuzzArgs` fails with no error: it returns the
empty signature and a nil error, and `ConvertLibfuzzerSeedToGoSeed` returns the marker
line as the corpus text. -/
theorem C4_counterexample :
    getFuzzArgs (parseAs fileWithoutEntryPoint) [] "FuzzX" = .ok ([], none) ∧
    getFuzzArgs (parseAs fileWithoutFuzzCall) [] "FuzzX" = .ok ([], none) ∧
    (ConvertLibfuzzerSeedToGoSeed (parseAs fileWithoutEntryPoint) byteCursor zeroFloatFmt
      [] [1, 2, 3] "FuzzX").result = .ok (lit "go test fuzz v1\n") ∧
    (ConvertLibfuzzerSeedToGoSeed (parseAs fileWithoutFuzzCall) byteCursor zeroFloatFmt
      [] [1, 2, 3] "FuzzX").result = .ok (lit "go test fuzz v1\n") := by
  decide

/-- C4 (amended): when the source has no declaration with the given name, or every
declaration with that name has a body without any `f.Fuzz` call, `getFuzzArgs` returns
the empty signature and no error, and `ConvertLibfuzzerSeedToGoSeed` returns the marker
line `go test fuzz v1` followed by a newline. -/
theorem C4_no_entry_point_gives_empty_signature {σ : Type}
    (ParseFile : GoString → Except String File) (c : Consumer σ) (ff : FloatFmt)
    (src testCase : List Nat) (fuzzerName : String) (f : File)
    (hparse : ParseFile src = .ok f)
    (hno : ∀ d ∈ f.Decls, d.isNamed fuzzerName = true →
      ∃ body, d.Body = some body ∧ hasFuzzCallStmts body = false) :
    getFuzzArgs ParseFile src fuzzerName = .ok ([], none) ∧
    (ConvertLibfuzzerSeedToGoSeed ParseFile c ff src testCase fuzzerName).result =
      .ok (lit "go test fuzz v1\n") := by
  have hargs : getFuzzArgs ParseFile src fuzzerName = .ok ([], none) := by
    simp [getFuzzArgs, hparse, walkDecls_of_no_fuzz fuzzerName f.Decls hno]
  refine ⟨hargs, ?_⟩
  simp [ConvertLibfuzzerSeedToGoSeed, hargs, libFuzzerSeedToGoSeed, encodeLoop]

/-- Witness of C4 (amended): a file whose entry point `FuzzX` calls `g(1)` only. -/
theorem C4_no_entry_point_gives_empty_signature_witness :
    parseAs fileWithoutFuzzCall [] = .ok fileWithoutFuzzCall ∧
    (∀ d ∈ fileWithoutFuzzCall.Decls, d.isNamed "FuzzX" = true →
      ∃ body, d.Body = some body ∧ hasFuzzCallStmts body = false) ∧
    getFuzzArgs (parseAs fileWithoutFuzzCall) [] "FuzzX" = .ok ([], none) ∧
    (ConvertLibfuzzerSeedToGoSeed (parseAs fileWithoutFuzzCall) byteCursor zeroFloatFmt
      [] [1, 2, 3] "FuzzX").result = .ok (lit "go test fuzz v1\n") :=
  have h : ∀ d ∈ fileWithoutFuzzCall.Decls, d.isNamed "FuzzX" = true →
      ∃ body, d.Body = some body ∧ hasFuzzCallStmts body = false := by
    intro d hd _
    simp only [fileWithoutFuzzCall, List.mem_singleton] at hd
    subst hd
    exact ⟨_, rfl, by decide⟩
  ⟨rfl, h,
    C4_no_entry_point_gives_empty_signature (parseAs fileWithoutFuzzCall) byteCursor
      zeroFloatFmt [] [1, 2, 3] "FuzzX" fileWithoutFuzzCall rfl h⟩

/-- C5 (the code at the failing input): for the entry point
`func FuzzX(f *testing.F) { f.Fuzz(func(*testing.T, *int) {}) }`, whose second parameter
has a pointer type, extraction does not fail: `getFuzzArgs` returns the empty signature.
With the same parameters named, `(t *testing.T, a *int)`, extraction panics. -/
theorem C5_unnamed_pointer_parameter_is_accepted :
    getFuzzArgs (parseAs (harnessFile paramsUnnamedPointer)) [] "FuzzX" = .ok ([], none) ∧
    specSignature paramsUnnamedPointer = none ∧
    getFuzzArgs (parseAs (harnessFile paramsNamedPointer)) [] "FuzzX" =
      .error (.runtime "interface conversion: ast.Expr is not *ast.Ident") ∧
    specSignature paramsNamedPointer = none := by
  decide

/-- C6: when the operation of some parameter returns an error on the state that the
operations of the earlier parameters left, `libFuzzerSeedToGoSeed` panics: it returns no
string, neither the marker nor the tokens rendered so far. -/
theorem C6_cursor_error_gives_no_output {σ : Type} (c : Consumer σ) (ff : FloatFmt)
    (testcase : List Nat) (args : List String) (k : Nat) (tag : String) (op : CursorOp)
    (err : String) (hk : args[k]? = some tag) (hop : switchOp tag = some op)
    (herr : (c.call op (stateAfter c (args.take k) (c.NewConsumer testcase))).1 =
      .error err) :
    (∃ p, (libFuzzerSeedToGoSeed c ff testcase args).result = .error p) ∧
    ∀ out, (libFuzzerSeedToGoSeed c ff testcase args).result ≠ .ok out := by
  have hnone : decodeAll c ff args (c.NewConsumer testcase) = none := by
    cases hd : decodeAll c ff args (c.NewConsumer testcase) with
    | none => rfl
    | some r =>
      obtain ⟨tokens, final⟩ := r
      obtain ⟨op', v, hop', hcall, -⟩ := (decodeAll_chain c ff args _ tokens final hd).2 k tag hk
      rw [hop] at hop'
      cases hop'
      rw [hcall] at herr
      cases herr
  obtain ⟨p, hp⟩ := libFuzzerSeedToGoSeed_error c ff testcase args hnone
  exact ⟨⟨p, hp⟩, fun out h => by rw [hp] at h; cases h⟩

/-- Witness of C6: the signature `int, int` on a buffer of one byte. -/
theorem C6_cursor_error_gives_no_output_witness :
    (["int", "int"] : List String)[1]? = some "int" ∧
    switchOp "int" = some .GetInt ∧
    (byteCursor.call .GetInt (stateAfter byteCursor ((["int", "int"] : List String).take 1)
      (byteCursor.NewConsumer [7]))).1 = .error "not enough bytes" ∧
    (∃ p, (libFuzzerSeedToGoSeed byteCursor zeroFloatFmt [7] ["int", "int"]).result =
      .error p) ∧
    ∀ out, (libFuzzerSeedToGoSeed byteCursor zeroFloatFmt [7] ["int", "int"]).result ≠
      .ok out :=
  ⟨by decide, by decide, by decide,
    C6_cursor_error_gives_no_output byteCursor zeroFloatFmt [7] ["int", "int"] 1 "int"
      .GetInt "not enough bytes" (by decide) (by decide) (by decide)⟩

/-- C7 (counterexample): the tag `uint` is outside the catalog, and the signature `uint`
on the buffer `7` does not fail: the output is the marker followed by `uint(7)`. -/
theorem C7_counterexample :
    catalogOp "uint" = none ∧
    (libFuzzerSeedToGoSeed byteCursor zeroFloatFmt [7] ["uint"]).result =
      .ok (lit "go test fuzz v1\nuint(7)") := by
  decide

/-- C7 (amended): a signature with a tag that is outside the catalog and is not `uint`
makes `libFuzzerSeedToGoSeed` panic on every buffer, and no string is returned; the tag
`uint`, which the catalog does not list, has a case of its own in the `switch`: it is
decoded by `GetInt` and written `uint(<decimal>)`. -/
theorem C7_tag_without_case_fails {σ : Type} (c : Consumer σ) (ff : FloatFmt)
    (args : List String) (tag : String) (hmem : tag ∈ args)
    (hout : catalogOp tag = none) (huint : tag ≠ "uint") (testcase : List Nat) :
    (∃ p, (libFuzzerSeedToGoSeed c ff testcase args).result = .error p) ∧
    (∀ out, (libFuzzerSeedToGoSeed c ff testcase args).result ≠ .ok out) ∧
    ∀ (n i : Nat) (b : GoString) (s : σ),
      switchArg c ff n i "uint" b s =
        (match c.GetInt s with
          | (.error err, s') => (s', .error (.error err))
          | (.ok v, s') =>
            (s', .ok (writeSep (b ++ (lit "uint(" ++ Itoa v ++ lit ")")) i n))) := by
  have hcase : switchOp tag = none := (switchOp_eq_none_iff tag).mpr ⟨hout, huint⟩
  obtain ⟨p, hp⟩ := libFuzzerSeedToGoSeed_error c ff testcase args
    (decodeAll_none_of_mem_outside c ff tag hcase args _ hmem)
  refine ⟨⟨p, hp⟩, ?_, ?_⟩
  · intro out h
    rw [hp] at h
    cases h
  · intro n i b s
    rfl

/-- Witness of C7 (amended): the signature `int, MyStruct` on a buffer of two bytes. -/
theorem C7_tag_without_case_fails_witness :
    "MyStruct" ∈ (["int", "MyStruct"] : List String) ∧
    catalogOp "MyStruct" = none ∧ "MyStruct" ≠ "uint" ∧
    (∃ p, (libFuzzerSeedToGoSeed byteCursor zeroFloatFmt [7, 1]
      ["int", "MyStruct"]).result = .error p) ∧
    (∀ out, (libFuzzerSeedToGoSeed byteCursor zeroFloatFmt [7, 1]
      ["int", "MyStruct"]).result ≠ .ok out) :=
  ⟨by decide, by decide, by decide,
    (C7_tag_without_case_fails byteCursor zeroFloatFmt ["int", "MyStruct"] "MyStruct"
      (by decide) (by decide) (by decide) [7, 1]).1,
    (C7_tag_without_case_fails byteCursor zeroFloatFmt ["int", "MyStruct"] "MyStruct"
      (by decide) (by decide) (by decide) [7, 1]).2.1⟩

/-- C8 (counterexample): for the entry point
`func FuzzX(f *testing.F) { f.Fuzz(func(t *testing.T, a int, b MyStruct) {}) }` and the
buffer `7 1`, translation fails at the parameter of type `MyStruct` after `GetInt` has
been invoked for the parameter before it and has consumed the first byte. -/
theorem C8_counterexample :
    (ConvertLibfuzzerSeedToGoSeed (parseAs (harnessFile paramsStructLast))
      byteCursor.traced zeroFloatFmt [] [7, 1] "FuzzX").result =
      .error (.message "Fuzzer uses unsupported type") ∧
    (ConvertLibfuzzerSeedToGoSeed (parseAs (harnessFile paramsStructLast))
      byteCursor.traced zeroFloatFmt [] [7, 1] "FuzzX").calls = [.GetInt] ∧
    (ConvertLibfuzzerSeedToGoSeed (parseAs (harnessFile paramsStructLast))
      byteCursor.traced zeroFloatFmt [] [7, 1] "FuzzX").consumer = some ([1], [.GetInt]) := by
  decide

/-- C8 (amended): when the extracted signature has a tag without a case in the `switch`,
that is a tag outside the catalog other than `uint`, translation fails.  With `bad` the
first such tag, no cursor operation is invoked for `bad` or a later parameter, and the
operations invoked are those of the parameters before `bad`, in signature order, up to
the first that fails: all of them, one per earlier parameter, when they all succeed, in
which case the panic is the one of the default case.  Translation fails before any
cursor operation exactly when `bad` is the first retained parameter. -/
theorem C8_fails_at_first_tag_without_case {σ : Type}
    (ParseFile : GoString → Except String File) (c : Consumer σ) (ff : FloatFmt)
    (src testCase : List Nat) (fuzzerName : String) (pre : List String) (bad : String)
    (post : List String)
    (hsig : getFuzzArgs ParseFile src fuzzerName = .ok (pre ++ bad :: post, none))
    (hfirst : ∀ t ∈ pre, catalogOp t ≠ none ∨ t = "uint")
    (hbad : catalogOp bad = none) (huint : bad ≠ "uint") :
    (∃ p, (ConvertLibfuzzerSeedToGoSeed ParseFile c.traced ff src testCase
      fuzzerName).result = .error p) ∧
    (ConvertLibfuzzerSeedToGoSeed ParseFile c.traced ff src testCase fuzzerName).calls =
      callsOf c pre (c.NewConsumer testCase) ∧
    (ConvertLibfuzzerSeedToGoSeed ParseFile c.traced ff src testCase fuzzerName).calls <+:
      pre.filterMap switchOp ∧
    ((ConvertLibfuzzerSeedToGoSeed ParseFile c.traced ff src testCase
      fuzzerName).calls = [] ↔ pre = []) ∧
    (AllSucceed c pre (c.NewConsumer testCase) →
      ((ConvertLibfuzzerSeedToGoSeed ParseFile c.traced ff src testCase
        fuzzerName).calls).map some = pre.map switchOp ∧
      ((ConvertLibfuzzerSeedToGoSeed ParseFile c.traced ff src testCase
        fuzzerName).calls).length = pre.length ∧
      (ConvertLibfuzzerSeedToGoSeed ParseFile c.traced ff src testCase
        fuzzerName).result = .error (.message "Fuzzer uses unsupported type")) := by
  have hcase : switchOp bad = none := (switchOp_eq_none_iff bad).mpr ⟨hbad, huint⟩
  have hconv : ConvertLibfuzzerSeedToGoSeed ParseFile c.traced ff src testCase fuzzerName =
      libFuzzerSeedToGoSeed c.traced ff testCase (pre ++ bad :: post) := by
    simp [ConvertLibfuzzerSeedToGoSeed, hsig]
  obtain ⟨hcalls, hres⟩ := libFuzzerSeedToGoSeed_traced c ff testCase (pre ++ bad :: post)
  rw [hconv, hcalls, hres, callsOf_append_outside c bad post hcase]
  refine ⟨?_, rfl, callsOf_initial c pre _, ?_, ?_⟩
  · exact libFuzzerSeedToGoSeed_error c ff testCase _
      (decodeAll_none_of_mem_outside c ff bad hcase _ _ (by simp))
  · constructor
    · intro hnil
      cases pre with
      | nil => rfl
      | cons t rest =>
        have ht : switchOp t ≠ none := by
          intro hn
          rcases hfirst t (by simp) with h | h
          · exact h ((switchOp_eq_none_iff t).mp hn).1
          · exact ((switchOp_eq_none_iff t).mp hn).2 h
        exact absurd hnil (callsOf_ne_nil c t rest _ ht)
    · intro hpre
      subst hpre
      rfl
  · intro hall
    obtain ⟨tokens, final, hdec⟩ := decodeAll_of_allSucceed c ff pre _ hall
    have hmap : (callsOf c pre (c.NewConsumer testCase)).map some = pre.map switchOp := by
      rw [callsOf_of_decodeAll c ff pre _ tokens final hdec]
      exact map_switchOp_of_decodeAll c ff pre _ tokens final hdec
    refine ⟨hmap, ?_, ?_⟩
    · have := congrArg List.length hmap
      simpa using this
    · exact encodeLoop_append_outside c ff _ bad post hcase pre 0 _ _ _ tokens final hdec

/-- Witness of C8 (amended): the parameters `(t *testing.T, a int, b MyStruct)` on the
buffer `7 1`. -/
theorem C8_fails_at_first_tag_without_case_witness :
    getFuzzArgs (parseAs (harnessFile paramsStructLast)) [] "FuzzX" =
      .ok (["int"] ++ "MyStruct" :: [], none) ∧
    (∀ t ∈ (["int"] : List String), catalogOp t ≠ none ∨ t = "uint") ∧
    catalogOp "MyStruct" = none ∧ "MyStruct" ≠ "uint" ∧
    (∃ p, (ConvertLibfuzzerSeedToGoSeed (parseAs (harnessFile paramsStructLast))
      byteCursor.traced zeroFloatFmt [] [7, 1] "FuzzX").result = .error p) ∧
    (ConvertLibfuzzerSeedToGoSeed (parseAs (harnessFile paramsStructLast))
      byteCursor.traced zeroFloatFmt [] [7, 1] "FuzzX").calls =
      callsOf byteCursor ["int"] (byteCursor.NewConsumer [7, 1]) ∧
    ((ConvertLibfuzzerSeedToGoSeed (parseAs (harnessFile paramsStructLast))
      byteCursor.traced zeroFloatFmt [] [7, 1] "FuzzX").calls = [] ↔
      (["int"] : List String) = []) :=
  ⟨by decide, by decide, by decide, by decide,
    (C8_fails_at_first_tag_without_case (parseAs (harnessFile paramsStructLast))
      byteCursor zeroFloatFmt [] [7, 1] "FuzzX" ["int"] "MyStruct" [] (by decide)
      (by decide) (by decide) (by decide)).1,
    (C8_fails_at_first_tag_without_case (parseAs (harnessFile paramsStructLast))
      byteCursor zeroFloatFmt [] [7, 1] "FuzzX" ["int"] "MyStruct" [] (by decide)
      (by decide) (by decide) (by decide)).2.1,
    (C8_fails_at_first_tag_without_case (parseAs (harnessFile paramsStructLast))
      byteCursor zeroFloatFmt [] [7, 1] "FuzzX" ["int"] "MyStruct" [] (by decide)
      (by decide) (by decide) (by decide)).2.2.2.1⟩

/-- C9 (the code at the failing input): for the signature `string` and a buffer from
which the cursor returns the text `a`, newline, `b`, the output has two lines after the
marker line, for one parameter. -/
theorem C9_newline_in_value_adds_a_line :
    byteCursor.GetString (byteCursor.NewConsumer [3, 97, 10, 98]) = (.ok [97, 10, 98], []) ∧
    (libFuzzerSeedToGoSeed byteCursor zeroFloatFmt [3, 97, 10, 98] ["string"]).result =
      .ok (lit "go test fuzz v1\nstring(\"a\nb\")") ∧
    (afterMarker (lit "go test fuzz v1\nstring(\"a\nb\")")).map lineCount = some 2 ∧
    (["string"] : List String).length = 1 := by
  decide

/-- C10 (the code at the failing input): the bytes backslash, `n` are rendered as the
token `[]byte("\n")`, which reads back as the single byte 10; the byte `"` is rendered
as `[]byte(""")`, which is no string literal; the same holds under the tag `string`. -/
theorem C10_value_is_not_escaped :
    byteCursor.GetBytes (byteCursor.NewConsumer [2, 92, 110]) = (.ok [92, 110], []) ∧
    (libFuzzerSeedToGoSeed byteCursor zeroFloatFmt [2, 92, 110] ["[]byte"]).result =
      .ok (lit "go test fuzz v1\n" ++ lit "[]byte(\"\\n\")") ∧
    readBack "[]byte" (lit "[]byte(\"\\n\")") = some [10] ∧
    byteCursor.GetBytes (byteCursor.NewConsumer [1, 34]) = (.ok [34], []) ∧
    (libFuzzerSeedToGoSeed byteCursor zeroFloatFmt [1, 34] ["[]byte"]).result =
      .ok (lit "go test fuzz v1\n" ++ lit "[]byte(\"\"\")") ∧
    readBack "[]byte" (lit "[]byte(\"\"\")") = none ∧
    (libFuzzerSeedToGoSeed byteCursor zeroFloatFmt [2, 92, 110] ["string"]).result =
      .ok (lit "go test fuzz v1\n" ++ lit "string(\"\\n\")") ∧
    readBack "string" (lit "string(\"\\n\")") = some [10] ∧
    readBack "[]byte" (lit "[]byte(\"hi\")") = some [104, 105] := by
  decide

/-! ## Further facts about the encoder -/

theorem decodeAll_of_result_ok {σ : Type} (c : Consumer σ) (ff : FloatFmt)
    (testcase : List Nat) (args : List String) (out : GoString)
    (h : (libFuzzerSeedToGoSeed c ff testcase args).result = .ok out) :
    ∃ tokens final, decodeAll c ff args (c.NewConsumer testcase) = some (tokens, final) ∧
      out = lit "go test fuzz v1\n" ++ List.intercalate (lit "\n") tokens := by
  cases hd : decodeAll c ff args (c.NewConsumer testcase) with
  | none =>
    obtain ⟨p, hp⟩ := libFuzzerSeedToGoSeed_error c ff testcase args hd
    rw [hp] at h
    cases h
  | some r =>
    obtain ⟨tokens, final⟩ := r
    refine ⟨tokens, final, rfl, ?_⟩
    rw [libFuzzerSeedToGoSeed_ok c ff testcase args tokens final hd] at h
    simp only [Except.ok.injEq] at h
    exact h.symm

theorem lit_paren : lit ")" = [41] := by decide

theorem lit_newline : lit "\n" = [10] := by decide

theorem lit_quote_paren : lit "\")" = [34, 41] := by decide

theorem switchToken_getLast (ff : FloatFmt) (tag : String) (v : Value) :
    (switchToken ff tag v).getLast? = some 41 := by
  cases v <;> simp [switchToken, lit_paren, lit_quote_paren, List.getLast?_append]

theorem decodeAll_tokens_getLast {σ : Type} (c : Consumer σ) (ff : FloatFmt) :
    ∀ (args : List String) (s : σ) (tokens : List GoString) (final : σ),
      decodeAll c ff args s = some (tokens, final) →
      ∀ t ∈ tokens, t.getLast? = some 41 := by
  intro args
  induction args with
  | nil =>
    intro s tokens final h
    simp only [decodeAll, Option.some.injEq, Prod.mk.injEq] at h
    simp [← h.1]
  | cons arg rest ih =>
    intro s tokens final h t ht
    obtain ⟨op, v, s', toks, -, -, hrest, rfl⟩ := (decodeAll_cons_eq_some ..).mp h
    rcases List.mem_cons.mp ht with rfl | hmem
    · exact switchToken_getLast ff arg v
    · exact ih s' toks final hrest t hmem

theorem intercalate_getLast (sep : GoString) :
    ∀ (tokens : List GoString), tokens ≠ [] → (∀ t ∈ tokens, t.getLast? = some 41) →
      (List.intercalate sep tokens).getLast? = some 41 := by
  intro tokens
  induction tokens with
  | nil => intro h; exact absurd rfl h
  | cons t rest ih =>
    intro _ hall
    cases rest with
    | nil => simpa [List.intercalate] using hall t (by simp)
    | cons u more =>
      rw [intercalate_cons_cons, List.getLast?_append,
        ih (by simp) (fun x hx => hall x (by simp [hx]))]
      rfl



theorem getFuzzArgs_error_nil (ParseFile : GoString → Except String File)
    (src : GoString) (fuzzerName : String) (args : List String) (e : Option String)
    (h : getFuzzArgs ParseFile src fuzzerName = .ok (args, e)) : e = none := by
  unfold getFuzzArgs at h
  split at h
  · cases h
  · split at h
    · cases h
    · simp only [Except.ok.injEq, Prod.mk.injEq] at h
      exact h.2.symm

theorem append_brackets_ne (T tag : String) (h : tag.data.head? ≠ some '[') :
    "[]" ++ T ≠ tag := by
  intro heq
  apply h
  rw [← heq]
  simp [String.data_append]

theorem append_brackets_inj (T U : String) (h : "[]" ++ T = "[]" ++ U) : T = U := by
  have := congrArg String.data h
  simp only [String.data_append, List.append_cancel_left_eq] at this
  exact String.ext this

theorem switchOp_sequence_none (T : String) (hb : T ≠ "byte") (hu : T ≠ "uint8") :
    switchOp ("[]" ++ T) = none := by
  apply switchOp_eq_none
  simp only [not_or]
  refine ⟨?_, ?_, ?_, ?_, ?_, ?_, ?_, ?_, ?_, ?_, ?_, ?_, ?_, ?_, ?_, ?_, ?_⟩
  · exact fun h => hu (append_brackets_inj T "uint8" h)
  · exact fun h => hb (append_brackets_inj T "byte" h)
  all_goals exact append_brackets_ne T _ (by decide)

/-! ## The claims, continued -/

/-- C12: whenever `libFuzzerSeedToGoSeed` returns, for any signature, the empty one
included, the output begins with the line `go test fuzz v1` ended by a newline. -/
theorem C12_output_begins_with_marker {σ : Type} (c : Consumer σ) (ff : FloatFmt)
    (testcase : List Nat) (args : List String) (out : GoString)
    (hret : (libFuzzerSeedToGoSeed c ff testcase args).result = .ok out) :
    lit "go test fuzz v1" ++ lit "\n" <+: out := by
  obtain ⟨tokens, final, -, hout⟩ := decodeAll_of_result_ok c ff testcase args out hret
  rw [hout, ← lit_append]
  exact List.prefix_append _ _

/-- Witness of C12: the empty signature, on a buffer of three bytes. -/
theorem C12_output_begins_with_marker_witness :
    (libFuzzerSeedToGoSeed byteCursor zeroFloatFmt [1, 2, 3] []).result =
      .ok (lit "go test fuzz v1\n") ∧
    lit "go test fuzz v1" ++ lit "\n" <+: lit "go test fuzz v1\n" :=
  ⟨by decide,
    C12_output_begins_with_marker byteCursor zeroFloatFmt [1, 2, 3] []
      (lit "go test fuzz v1\n") (by decide)⟩

/-- C14: each of the tags `int`, `int8`, `int16`, `int32`, `int64` and `uint8` is decoded
by the one operation `GetInt`: on any cursor state the `switch` calls `GetInt`, leaves
the cursor in the state `GetInt` leaves, and renders the tag, `(`, the decimal of the
value and `)`, so that for two of these tags the tokens differ in the tag only; on a
traced cursor the operation logged is `GetInt`, which is also the operation that the
catalog designates for the tag. -/
theorem C14_integer_tags_share_GetInt {σ : Type} (c : Consumer σ) (ff : FloatFmt)
    (n i : Nat) (tag : String) (b : GoString) (s : σ) (log : List CursorOp)
    (htag : tag ∈ ["int", "int8", "int16", "int32", "int64", "uint8"]) :
    switchOp tag = some .GetInt ∧
    switchArg c ff n i tag b s =
      (match c.GetInt s with
        | (.error err, s') => (s', .error (.error err))
        | (.ok v, s') =>
          (s', .ok (writeSep (b ++ (lit tag ++ lit "(" ++ Itoa v ++ lit ")")) i n))) ∧
    (switchArg c.traced ff n i tag b (s, log)).1 = ((c.GetInt s).2, log ++ [.GetInt]) ∧
    catalogOp tag = some .GetInt := by
  have hop : switchOp tag = some .GetInt := by
    simp only [List.mem_cons, List.mem_singleton, List.not_mem_nil, or_false] at htag
    rcases htag with rfl | rfl | rfl | rfl | rfl | rfl <;> rfl
  have hcat : catalogOp tag = some .GetInt := by
    simp only [List.mem_cons, List.mem_singleton, List.not_mem_nil, or_false] at htag
    rcases htag with rfl | rfl | rfl | rfl | rfl | rfl <;> rfl
  refine ⟨hop, ?_, ?_, hcat⟩
  · rw [switchArg_eq, hop]
    simp only [Consumer.call]
    rcases c.GetInt s with ⟨err | v, s'⟩ <;> simp [Except.map, switchToken]
  · rw [switchArg_eq, hop]
    simp only [traced_call]
    simp only [Consumer.call]
    rcases c.GetInt s with ⟨err | v, s'⟩ <;> simp [Except.map]

/-- Witness of C14: the tag `int16` on the buffer `7 1`. -/
theorem C14_integer_tags_share_GetInt_witness :
    "int16" ∈ ["int", "int8", "int16", "int32", "int64", "uint8"] ∧
    switchOp "int16" = some .GetInt ∧
    switchArg byteCursor zeroFloatFmt 1 0 "int16" [] [7, 1] =
      (match byteCursor.GetInt [7, 1] with
        | (.error err, s') => (s', .error (.error err))
        | (.ok v, s') =>
          (s', .ok (writeSep ([] ++ (lit "int16" ++ lit "(" ++ Itoa v ++ lit ")")) 0 1))) ∧
    (switchArg byteCursor.traced zeroFloatFmt 1 0 "int16" [] ([7, 1], [])).1 =
      ((byteCursor.GetInt [7, 1]).2, [] ++ [.GetInt]) ∧
    catalogOp "int16" = some .GetInt :=
  ⟨by decide,
    C14_integer_tags_share_GetInt byteCursor zeroFloatFmt 1 0 "int16" [] [7, 1] []
      (by decide)⟩

/-- C15: the tag `[]T` is decoded when `T` is `byte` or `uint8`, by the operation
`GetBytes`, and rendered `[]byte("...")`; for every other element name `T` the tag is
without a case, and every signature that contains it makes the encoder panic, on
every buffer; the catalog designates for `[]T` the operation of the `switch`: `GetBytes`
for the two element names, none for any other. -/
theorem C15_sequence_tag_needs_byte_element {σ : Type} (c : Consumer σ) (ff : FloatFmt)
    (T : String) :
    (T = "byte" ∨ T = "uint8" →
      switchOp ("[]" ++ T) = some .GetBytes ∧
      ∀ (n i : Nat) (b : GoString) (s : σ),
        switchArg c ff n i ("[]" ++ T) b s =
          (match c.GetBytes s with
            | (.error err, s') => (s', .error (.error err))
            | (.ok v, s') =>
              (s', .ok (writeSep (b ++ (lit "[]byte(\"" ++ v ++ lit "\")")) i n)))) ∧
    (T ≠ "byte" → T ≠ "uint8" →
      switchOp ("[]" ++ T) = none ∧
      ∀ (args : List String) (testcase : List Nat), "[]" ++ T ∈ args →
        ∃ p, (libFuzzerSeedToGoSeed c ff testcase args).result = .error p) ∧
    catalogOp ("[]" ++ T) = switchOp ("[]" ++ T) := by
  refine ⟨?_, ?_, catalogOp_eq_switchOp _ (append_brackets_ne T "uint" (by decide))⟩
  · intro hT
    have hop : switchOp ("[]" ++ T) = some .GetBytes := by
      rcases hT with rfl | rfl <;> rfl
    refine ⟨hop, ?_⟩
    intro n i b s
    rw [switchArg_eq, hop]
    simp only [Consumer.call]
    rcases c.GetBytes s with ⟨err | v, s'⟩ <;> simp [Except.map, switchToken]
  · intro hb hu
    have hop := switchOp_sequence_none T hb hu
    refine ⟨hop, ?_⟩
    intro args testcase hmem
    exact libFuzzerSeedToGoSeed_error c ff testcase args
      (decodeAll_none_of_mem_outside c ff _ hop args _ hmem)

/-- Witness of C15: the tags `[]uint8` and `[]int`. -/
theorem C15_sequence_tag_needs_byte_element_witness :
    ("uint8" = "byte" ∨ "uint8" = "uint8") ∧ "int" ≠ "byte" ∧ "int" ≠ "uint8" ∧
    switchOp ("[]" ++ "uint8") = some .GetBytes ∧
    switchOp ("[]" ++ "int") = none ∧
    (∃ p, (libFuzzerSeedToGoSeed byteCursor zeroFloatFmt [1, 2] ["int", "[]int"]).result =
      .error p) ∧
    catalogOp ("[]" ++ "int") = switchOp ("[]" ++ "int") :=
  ⟨by decide, by decide, by decide,
    ((C15_sequence_tag_needs_byte_element byteCursor zeroFloatFmt "uint8").1
      (by decide)).1,
    ((C15_sequence_tag_needs_byte_element byteCursor zeroFloatFmt "int").2.1
      (by decide) (by decide)).1,
    ((C15_sequence_tag_needs_byte_element byteCursor zeroFloatFmt "int").2.1
      (by decide) (by decide)).2 ["int", "[]int"] [1, 2] (by decide),
    (C15_sequence_tag_needs_byte_element byteCursor zeroFloatFmt "int").2.2⟩

/-- C19: on the empty signature and any buffer, `libFuzzerSeedToGoSeed` returns
`go test fuzz v1` followed by one newline and invokes no cursor operation; on a
signature that is not empty, an output that is returned ends with the closing
parenthesis of its last token, so no newline follows the last element. -/
theorem C19_empty_signature_gives_marker_line {σ : Type} (c : Consumer σ) (ff : FloatFmt)
    (testcase : List Nat) :
    libFuzzerSeedToGoSeed c ff testcase [] =
      ⟨some (c.NewConsumer testcase), [], .ok (lit "go test fuzz v1" ++ lit "\n")⟩ ∧
    (libFuzzerSeedToGoSeed c.traced ff testcase []).calls = [] ∧
    (lit "go test fuzz v1" ++ lit "\n").getLast? = some 10 ∧
    ∀ (args : List String) (out : GoString), args ≠ [] →
      (libFuzzerSeedToGoSeed c ff testcase args).result = .ok out →
      out.getLast? = some 41 := by
  refine ⟨?_, rfl, by decide, ?_⟩
  · rw [← lit_append]
    rfl
  · intro args out hne hret
    obtain ⟨tokens, final, hdec, hout⟩ := decodeAll_of_result_ok c ff testcase args out hret
    have hlen := decodeAll_length c ff _ _ _ _ hdec
    have htok : tokens ≠ [] := by
      intro ht
      rw [ht] at hlen
      exact hne (List.length_eq_zero.mp hlen.symm)
    rw [hout, List.getLast?_append,
      intercalate_getLast _ tokens htok (decodeAll_tokens_getLast c ff _ _ _ _ hdec)]
    rfl

/-- Witness of C19: the empty signature and the signature `int, bool` on the buffer
`7 1`. -/
theorem C19_empty_signature_gives_marker_line_witness :
    libFuzzerSeedToGoSeed byteCursor zeroFloatFmt [7, 1] [] =
      ⟨some (byteCursor.NewConsumer [7, 1]), [],
        .ok (lit "go test fuzz v1" ++ lit "\n")⟩ ∧
    (["int", "bool"] : List String) ≠ [] ∧
    (libFuzzerSeedToGoSeed byteCursor zeroFloatFmt [7, 1] ["int", "bool"]).result =
      .ok (lit "go test fuzz v1\nint(7)\nbool(true)") ∧
    (lit "go test fuzz v1\nint(7)\nbool(true)").getLast? = some 41 :=
  ⟨(C19_empty_signature_gives_marker_line byteCursor zeroFloatFmt [7, 1]).1,
    by decide, by decide,
    (C19_empty_signature_gives_marker_line byteCursor zeroFloatFmt [7, 1]).2.2.2
      ["int", "bool"] _ (by decide) (by decide)⟩


theorem utf8EncodeRune_head_ne_quote (r : Int) (rest : List Nat)
    (h : utf8EncodeRune r = 39 :: rest) : rest = [] := by
  unfold utf8EncodeRune at h
  split at h
  · simp at h
  · simp only at h
    split at h
    · simp only [List.cons.injEq] at h
      exact h.2.symm
    · split at h
      · simp only [List.cons.injEq] at h
        omega
      · split at h
        · simp at h
        · split at h
          · simp only [List.cons.injEq] at h
            omega
          · split at h
            · simp only [List.cons.injEq] at h
              omega
            · simp at h

/-- C13 (the code at the failing input): for the signature `rune` and a buffer from which
the cursor returns the character `A`, the token is `rune(A)`, whose text in parentheses
is no character literal; the character literal of `A` is `'A'`.  No single rune is
rendered as a character literal. -/
theorem C13_rune_is_rendered_without_quotes :
    byteCursor.GetRune (byteCursor.NewConsumer [65]) = (.ok [65], []) ∧
    (libFuzzerSeedToGoSeed byteCursor zeroFloatFmt [65] ["rune"]).result =
      .ok (lit "go test fuzz v1\n" ++ lit "rune(A)") ∧
    readBackRune (lit "rune(A)") = none ∧
    readBackRune (lit "rune('A')") = some 65 ∧
    ∀ r : Int, UnquoteRune (runesToString [r]) = none := by
  refine ⟨by decide, by decide, by decide, by decide, ?_⟩
  intro r
  have hrs : runesToString [r] = utf8EncodeRune r := by simp [runesToString]
  rw [hrs]
  unfold UnquoteRune
  cases hr : utf8EncodeRune r with
  | nil => rfl
  | cons x rest =>
    simp only
    split
    · rename_i hx
      rw [hx.1] at hr
      have := utf8EncodeRune_head_ne_quote r rest hr
      rw [this] at hx
      simp at hx
    · rfl


/-! ## The extractor against the signature of the body -/

theorem optAppend_eq_some (a b : Option (List String)) (t : List String) :
    optAppend a b = some t ↔ ∃ x y, a = some x ∧ b = some y ∧ t = x ++ y := by
  cases a <;> cases b <;> simp [optAppend, eq_comm]

theorem addArgsNames_of_typeTag (Typ : Expr) (tag : String) (h : typeTag Typ = some tag) :
    ∀ (names : List String) (w : BodyWalker),
      w.addArgsNames Typ names =
        .ok ⟨w.args ++ List.replicate names.length tag, w.fuzzerName⟩ := by
  intro names
  induction names with
  | nil => intro w; simp [BodyWalker.addArgsNames]
  | cons name rest ih =>
    intro w
    cases Typ with
    | Ident Name =>
      simp only [typeTag, Option.some.injEq] at h
      subst h
      simp [BodyWalker.addArgsNames, ih, BodyWalker.addArg, List.replicate_succ]
    | ArrayType Len Elt =>
      cases Elt with
      | Ident Name =>
        simp only [typeTag, Option.some.injEq] at h
        subst h
        simp [BodyWalker.addArgsNames, getArrayType, ih, BodyWalker.addArg,
          List.replicate_succ]
      | _ => simp [typeTag] at h
    | _ => simp [typeTag] at h

theorem addArgs_of_fieldTags :
    ∀ (fields : List Field) (w : BodyWalker) (tags : List String),
      fieldTags fields = some tags →
      w.addArgs fields = .ok ⟨w.args ++ tags, w.fuzzerName⟩ := by
  intro fields
  induction fields with
  | nil =>
    intro w tags h
    simp only [fieldTags, Option.some.injEq] at h
    simp [BodyWalker.addArgs, ← h]
  | cons f rest ih =>
    intro w tags h
    simp only [fieldTags] at h
    split at h
    · rename_i t1 t2 h1 h2
      simp only [Option.some.injEq] at h
      subst h
      have hnames : w.addArgsNames f.Typ f.Names = .ok ⟨w.args ++ t1, w.fuzzerName⟩ := by
        by_cases hn : f.Names = []
        · simp only [hn, if_true, Option.some.injEq] at h1
          simp [hn, BodyWalker.addArgsNames, ← h1]
        · simp only [hn, if_false, Option.map_eq_some'] at h1
          obtain ⟨tag, htag, rfl⟩ := h1
          exact addArgsNames_of_typeTag f.Typ tag htag f.Names w
      simp [BodyWalker.addArgs, hnames, ih _ t2 h2]
    · cases h

theorem fieldTags_of_tagged :
    ∀ (fields : List Field), (∀ f ∈ fields, (typeTag f.Typ).isSome = true) →
      fieldTags fields = some (nameTags fields) := by
  intro fields
  induction fields with
  | nil => intro _; rfl
  | cons f rest ih =>
    intro h
    obtain ⟨tag, htag⟩ := Option.isSome_iff_exists.mp (h f (by simp))
    have hrest := ih (fun g hg => h g (by simp [hg]))
    have hcons : nameTags (f :: rest) =
        List.replicate f.Names.length tag ++ nameTags rest := by
      simp [nameTags, htag]
    rw [hcons]
    simp only [fieldTags, hrest, htag]
    by_cases hn : f.Names = []
    · simp [hn]
    · simp [hn]

theorem nameTags_length (fields : List Field) :
    (nameTags fields).length = (fields.map fun f => f.Names.length).sum := by
  induction fields with
  | nil => rfl
  | cons f rest ih =>
    simp only [nameTags, List.flatMap_cons, List.length_append, List.length_replicate,
      List.map_cons, List.sum_cons] at ih ⊢
    rw [ih]

theorem Visit_call_of_tags (w : BodyWalker) (Fun : Expr) (Args : List Expr)
    (t : List String)
    (h : (if isFuzzSelector Fun = true then callTags Args else some []) = some t) :
    w.Visit (.Expr (.CallExpr Fun Args)) = .ok ⟨w.args ++ t, w.fuzzerName⟩ := by
  by_cases hf : isFuzzSelector Fun = true
  · rw [if_pos hf] at h
    cases Fun with
    | SelectorExpr X Sel =>
      cases X with
      | Ident Name =>
        simp only [isFuzzSelector, decide_eq_true_eq] at hf
        cases Args with
        | nil => simp [callTags] at h
        | cons first more =>
          cases first with
          | FuncLit Params Results Body =>
            cases Params with
            | nil => simp [callTags] at h
            | cons p rest =>
              simp only [callTags] at h
              simp [BodyWalker.Visit, hf, addArgs_of_fieldTags rest w t h]
          | _ => simp [callTags] at h
      | _ => simp [isFuzzSelector] at hf
    | _ => simp [isFuzzSelector] at hf
  · rw [if_neg hf] at h
    simp only [Option.some.injEq] at h
    subst h
    rw [Visit_expr_of_not_fuzz w _ (by
      intro F A hFA
      cases hFA
      simpa using hf)]
    simp

theorem walker_append_nil (w : BodyWalker) :
    (⟨w.args ++ [], w.fuzzerName⟩ : BodyWalker) = w := by
  cases w
  simp

mutual
theorem walkExpr_of_fuzzTags (w : BodyWalker) :
    ∀ (e : Expr) (tags : List String), fuzzTagsExpr e = some tags →
      walkExpr w e = .ok ⟨w.args ++ tags, w.fuzzerName⟩
  | .Ident _, tags, h => by
    simp only [fuzzTagsExpr, Option.some.injEq] at h
    subst h
    rw [walkExpr, Visit_expr_of_not_fuzz w _ (by simp)]
    simp [Except.bind, Visit_nil]
  | .BasicLit _, tags, h => by
    simp only [fuzzTagsExpr, Option.some.injEq] at h
    subst h
    rw [walkExpr, Visit_expr_of_not_fuzz w _ (by simp)]
    simp [Except.bind, Visit_nil]
  | .SelectorExpr X _, tags, h => by
    simp only [fuzzTagsExpr] at h
    rw [walkExpr, Visit_expr_of_not_fuzz w _ (by simp)]
    simp only [Except.bind, walkExpr_of_fuzzTags w X tags h, Visit_nil]
  | .CallExpr Fun Args, tags, h => by
    simp only [fuzzTagsExpr, optAppend_eq_some] at h
    obtain ⟨t0, t12, h0, ⟨t1, t2, h1, h2, rfl⟩, rfl⟩ := h
    rw [walkExpr, Visit_call_of_tags w Fun Args t0 h0]
    simp only [Except.bind, walkExpr_of_fuzzTags _ Fun t1 h1,
      walkExprs_of_fuzzTags _ Args t2 h2, Visit_nil, List.append_assoc]
  | .FuncLit Params Results Body, tags, h => by
    simp only [fuzzTagsExpr, optAppend_eq_some] at h
    obtain ⟨t0, t12, h0, ⟨t1, t2, h1, h2, rfl⟩, rfl⟩ := h
    rw [walkExpr, Visit_expr_of_not_fuzz w _ (by simp)]
    simp only [Except.bind, walkFields_of_fuzzTags _ Params t0 h0,
      walkFields_of_fuzzTags _ Results t1 h1, walkStmts_of_fuzzTags _ Body t2 h2,
      Visit_nil, List.append_assoc]
  | .ArrayType Len Elt, tags, h => by
    simp only [fuzzTagsExpr, optAppend_eq_some] at h
    obtain ⟨t0, t1, h0, h1, rfl⟩ := h
    rw [walkExpr, Visit_expr_of_not_fuzz w _ (by simp)]
    simp only [Except.bind, walkExprOpt_of_fuzzTags _ Len t0 h0,
      walkExpr_of_fuzzTags _ Elt t1 h1, Visit_nil, List.append_assoc]
  | .StarExpr X, tags, h => by
    simp only [fuzzTagsExpr] at h
    rw [walkExpr, Visit_expr_of_not_fuzz w _ (by simp)]
    simp only [Except.bind, walkExpr_of_fuzzTags w X tags h, Visit_nil]
  | .StructType Fields, tags, h => by
    simp only [fuzzTagsExpr] at h
    rw [walkExpr, Visit_expr_of_not_fuzz w _ (by simp)]
    simp only [Except.bind, walkFields_of_fuzzTags w Fields tags h, Visit_nil]
  | .UnaryExpr _ X, tags, h => by
    simp only [fuzzTagsExpr] at h
    rw [walkExpr, Visit_expr_of_not_fuzz w _ (by simp)]
    simp only [Except.bind, walkExpr_of_fuzzTags w X tags h, Visit_nil]
  | .BinaryExpr X _ Y, tags, h => by
    simp only [fuzzTagsExpr, optAppend_eq_some] at h
    obtain ⟨t0, t1, h0, h1, rfl⟩ := h
    rw [walkExpr, Visit_expr_of_not_fuzz w _ (by simp)]
    simp only [Except.bind, walkExpr_of_fuzzTags _ X t0 h0,
      walkExpr_of_fuzzTags _ Y t1 h1, Visit_nil, List.append_assoc]
theorem walkExprOpt_of_fuzzTags (w : BodyWalker) :
    ∀ (o : Option Expr) (tags : List String), fuzzTagsExprOpt o = some tags →
      walkExprOpt w o = .ok ⟨w.args ++ tags, w.fuzzerName⟩
  | none, tags, h => by
    simp only [fuzzTagsExprOpt, Option.some.injEq] at h
    subst h
    rw [walkExprOpt, walker_append_nil]
  | some e, tags, h => by
    simp only [fuzzTagsExprOpt] at h
    rw [walkExprOpt, walkExpr_of_fuzzTags w e tags h]
theorem walkExprs_of_fuzzTags (w : BodyWalker) :
    ∀ (l : List Expr) (tags : List String), fuzzTagsExprs l = some tags →
      walkExprs w l = .ok ⟨w.args ++ tags, w.fuzzerName⟩
  | [], tags, h => by
    simp only [fuzzTagsExprs, Option.some.injEq] at h
    subst h
    rw [walkExprs, walker_append_nil]
  | e :: rest, tags, h => by
    simp only [fuzzTagsExprs, optAppend_eq_some] at h
    obtain ⟨t0, t1, h0, h1, rfl⟩ := h
    rw [walkExprs]
    simp only [Except.bind, walkExpr_of_fuzzTags _ e t0 h0,
      walkExprs_of_fuzzTags _ rest t1 h1, List.append_assoc]
theorem walkField_of_fuzzTags (w : BodyWalker) :
    ∀ (f : Field) (tags : List String), fuzzTagsField f = some tags →
      walkField w f = .ok ⟨w.args ++ tags, w.fuzzerName⟩
  | .mk _ Typ, tags, h => by
    simp only [fuzzTagsField] at h
    rw [walkField]
    simp only [Except.bind, Visit_field, walkExpr_of_fuzzTags w Typ tags h, Visit_nil]
theorem walkFields_of_fuzzTags (w : BodyWalker) :
    ∀ (l : List Field) (tags : List String), fuzzTagsFields l = some tags →
      walkFields w l = .ok ⟨w.args ++ tags, w.fuzzerName⟩
  | [], tags, h => by
    simp only [fuzzTagsFields, Option.some.injEq] at h
    subst h
    rw [walkFields, walker_append_nil]
  | f :: rest, tags, h => by
    simp only [fuzzTagsFields, optAppend_eq_some] at h
    obtain ⟨t0, t1, h0, h1, rfl⟩ := h
    rw [walkFields]
    simp only [Except.bind, walkField_of_fuzzTags _ f t0 h0,
      walkFields_of_fuzzTags _ rest t1 h1, List.append_assoc]
theorem walkStmt_of_fuzzTags (w : BodyWalker) :
    ∀ (s : Stmt) (tags : List String), fuzzTagsStmt s = some tags →
      walkStmt w s = .ok ⟨w.args ++ tags, w.fuzzerName⟩
  | .ExprStmt X, tags, h => by
    simp only [fuzzTagsStmt] at h
    rw [walkStmt]
    simp only [Except.bind, Visit_stmt, walkExpr_of_fuzzTags w X tags h, Visit_nil]
  | .AssignStmt Lhs _ Rhs, tags, h => by
    simp only [fuzzTagsStmt, optAppend_eq_some] at h
    obtain ⟨t0, t1, h0, h1, rfl⟩ := h
    rw [walkStmt]
    simp only [Except.bind, Visit_stmt, walkExprs_of_fuzzTags _ Lhs t0 h0,
      walkExprs_of_fuzzTags _ Rhs t1 h1, Visit_nil, List.append_assoc]
  | .ReturnStmt Results, tags, h => by
    simp only [fuzzTagsStmt] at h
    rw [walkStmt]
    simp only [Except.bind, Visit_stmt, walkExprs_of_fuzzTags w Results tags h, Visit_nil]
  | .BlockStmt List, tags, h => by
    simp only [fuzzTagsStmt] at h
    rw [walkStmt]
    simp only [Except.bind, Visit_stmt, walkStmts_of_fuzzTags w List tags h, Visit_nil]
  | .IfStmt Cond Body Else, tags, h => by
    simp only [fuzzTagsStmt, optAppend_eq_some] at h
    obtain ⟨t0, t12, h0, ⟨t1, t2, h1, h2, rfl⟩, rfl⟩ := h
    rw [walkStmt]
    simp only [Except.bind, Visit_stmt, walkExpr_of_fuzzTags _ Cond t0 h0,
      walkStmts_of_fuzzTags _ Body t1 h1, walkStmtOpt_of_fuzzTags _ Else t2 h2,
      Visit_nil, List.append_assoc]
  | .DeferStmt Call, tags, h => by
    simp only [fuzzTagsStmt] at h
    rw [walkStmt]
    simp only [Except.bind, Visit_stmt, walkExpr_of_fuzzTags w Call tags h, Visit_nil]
theorem walkStmtOpt_of_fuzzTags (w : BodyWalker) :
    ∀ (o : Option Stmt) (tags : List String), fuzzTagsStmtOpt o = some tags →
      walkStmtOpt w o = .ok ⟨w.args ++ tags, w.fuzzerName⟩
  | none, tags, h => by
    simp only [fuzzTagsStmtOpt, Option.some.injEq] at h
    subst h
    rw [walkStmtOpt, walker_append_nil]
  | some s, tags, h => by
    simp only [fuzzTagsStmtOpt] at h
    rw [walkStmtOpt, walkStmt_of_fuzzTags w s tags h]
theorem walkStmts_of_fuzzTags (w : BodyWalker) :
    ∀ (l : List Stmt) (tags : List String), fuzzTagsStmts l = some tags →
      walkStmts w l = .ok ⟨w.args ++ tags, w.fuzzerName⟩
  | [], tags, h => by
    simp only [fuzzTagsStmts, Option.some.injEq] at h
    subst h
    rw [walkStmts, walker_append_nil]
  | s :: rest, tags, h => by
    simp only [fuzzTagsStmts, optAppend_eq_some] at h
    obtain ⟨t0, t1, h0, h1, rfl⟩ := h
    rw [walkStmts]
    simp only [Except.bind, walkStmt_of_fuzzTags _ s t0 h0,
      walkStmts_of_fuzzTags _ rest t1 h1, List.append_assoc]
end

theorem walkDecls_of_not_named (w : Walker) :
    ∀ (decls : List Decl), (∀ d ∈ decls, d.isNamed w.fuzzerName = false) →
      walkDecls w decls = .ok w := by
  intro decls
  induction decls with
  | nil => intro _; rfl
  | cons d rest ih =>
    intro h
    have hd := h d (by simp)
    have hrest := ih (fun d' hd' => h d' (by simp [hd']))
    cases d with
    | GenDecl Tok Values => simpa [walkDecls, Walker.Visit] using hrest
    | FuncDecl Recv Name Params Results Body =>
      simp only [Decl.isNamed, decide_eq_false_iff_not] at hd
      simpa [walkDecls, Walker.Visit, hd] using hrest

theorem walkDecls_append (w : Walker) :
    ∀ (pre post : List Decl) (w1 : Walker), walkDecls w pre = .ok w1 →
      walkDecls w (pre ++ post) = walkDecls w1 post := by
  intro pre
  induction pre generalizing w with
  | nil =>
    intro post w1 h
    simp only [walkDecls, Except.ok.injEq] at h
    simp [h]
  | cons d rest ih =>
    intro post w1 h
    simp only [walkDecls, List.cons_append] at h ⊢
    cases hv : w.Visit d with
    | error p => rw [hv] at h; cases h
    | ok w2 =>
      rw [hv] at h
      simp only at h ⊢
      exact ih w2 post w1 h

/-- The signature extracted for an entry point that is declared once, with a body:
the retained tags of the `f.Fuzz` calls of the body, in traversal order. -/
theorem getFuzzArgs_of_fuzzTags (ParseFile : GoString → Except String File)
    (src : GoString) (fuzzerName : String) (f : File) (pre post : List Decl)
    (Recv Params Results : List Field) (body : List Stmt) (tags : List String)
    (hparse : ParseFile src = .ok f)
    (hdecls : f.Decls = pre ++ .FuncDecl Recv fuzzerName Params Results (some body) :: post)
    (hothers : ∀ d ∈ pre ++ post, d.isNamed fuzzerName = false)
    (htags : fuzzTagsStmts body = some tags) :
    getFuzzArgs ParseFile src fuzzerName = .ok (tags, none) := by
  have hpre : walkDecls { args := [], fuzzerName := fuzzerName } pre =
      .ok { args := [], fuzzerName := fuzzerName } :=
    walkDecls_of_not_named _ pre (fun d hd => hothers d (by simp [hd]))
  have hpost : ∀ w : Walker, w.fuzzerName = fuzzerName → walkDecls w post = .ok w := by
    intro w hw
    exact walkDecls_of_not_named w post (fun d hd => by rw [hw]; exact hothers d (by simp [hd]))
  have hwalk := walkStmts_of_fuzzTags { args := [], fuzzerName := fuzzerName } body tags htags
  simp only [List.nil_append] at hwalk
  unfold getFuzzArgs
  rw [hparse]
  simp only
  rw [hdecls, walkDecls_append _ pre _ _ hpre]
  simp only [walkDecls, Walker.Visit, if_true, walkBody, hwalk]
  rw [hpost _ rfl]

theorem isFuzzSelector_eq_false_iff (Fun : Expr) :
    isFuzzSelector Fun = false ↔
      ∀ Name Sel, Fun = .SelectorExpr (.Ident Name) Sel → Name ≠ "f" ∨ Sel ≠ "Fuzz" := by
  cases Fun with
  | SelectorExpr X Sel =>
    cases X with
    | Ident Name =>
      simp only [isFuzzSelector, decide_eq_false_iff_not, not_and_or, Expr.SelectorExpr.injEq,
        Expr.Ident.injEq, and_imp]
      constructor
      · intro h N S hN hS
        subst hN; subst hS
        exact h
      · intro h
        exact h Name Sel rfl rfl
    | _ => simp [isFuzzSelector]
  | _ => simp [isFuzzSelector]

theorem fuzzTagsStmts_calls :
    ∀ (calls : List (List Field × List String)),
      (∀ call ∈ calls, callTags [.FuncLit call.1 [] []] = some call.2 ∧
        fuzzTagsFields call.1 = some []) →
      fuzzTagsStmts (calls.map fun call => fuzzCallStmt call.1) =
        some (calls.flatMap fun call => call.2) := by
  intro calls
  induction calls with
  | nil => intro _; rfl
  | cons call rest ih =>
    intro h
    obtain ⟨h1, h2⟩ := h call (by simp)
    have hrest := ih (fun x hx => h x (by simp [hx]))
    have hstmt : fuzzTagsStmt (fuzzCallStmt call.1) = some call.2 := by
      simp [fuzzCallStmt, fuzzTagsStmt, fuzzTagsExpr, fuzzTagsExprs, fuzzTagsFields,
        fuzzTagsStmts, isFuzzSelector, h1, h2, optAppend]
    simp only [List.map_cons, fuzzTagsStmts, hstmt, hrest, optAppend, List.flatMap_cons]


/-- C17: a call expression contributes to the signature only when its callee is the
selector `Fuzz` on the plain identifier `f`: the visit of any other node leaves the
walker as it is; a body in which every call has another receiver name, a receiver that
is no identifier, or another method name is walked without panic and adds no tag, and
the signature extracted for such an entry point is empty. -/
theorem C17_only_f_Fuzz_calls_contribute (ParseFile : GoString → Except String File)
    (src : GoString) (fuzzerName : String) (w : BodyWalker) (body : List Stmt)
    (hbody : hasFuzzCallStmts body = false) :
    (∀ Fun : Expr, isFuzzSelector Fun = false ↔
      ∀ Name Sel, Fun = .SelectorExpr (.Ident Name) Sel → Name ≠ "f" ∨ Sel ≠ "Fuzz") ∧
    (∀ Fun Args, isFuzzSelector Fun = false →
      w.Visit (.Expr (.CallExpr Fun Args)) = .ok w) ∧
    walkBody w (some body) = .ok w ∧
    (ParseFile src = .ok (entryPointFile fuzzerName body) →
      getFuzzArgs ParseFile src fuzzerName = .ok ([], none)) := by
  refine ⟨isFuzzSelector_eq_false_iff, ?_, walkStmts_of_no_fuzz w body hbody, ?_⟩
  · intro Fun Args hf
    exact Visit_expr_of_not_fuzz w _ (by
      intro F A hFA
      cases hFA
      exact hf)
  · intro hparse
    have hwalk := walkDecls_of_no_fuzz fuzzerName (entryPointFile fuzzerName body).Decls
      (by
        intro d hd _
        simp only [entryPointFile, List.mem_singleton] at hd
        subst hd
        exact ⟨body, rfl, hbody⟩)
    unfold getFuzzArgs
    rw [hparse]
    simp only [hwalk]

/-- Witness of C17: the body `t.Fuzz(x); f.Add(1); a.b.Fuzz(2); Fuzz(3)`. -/
theorem C17_only_f_Fuzz_calls_contribute_witness :
    hasFuzzCallStmts bodyOtherCalls = false ∧
    walkBody ⟨["x"], "FuzzY"⟩ (some bodyOtherCalls) = .ok ⟨["x"], "FuzzY"⟩ ∧
    getFuzzArgs (parseAs (entryPointFile "FuzzY" bodyOtherCalls)) [] "FuzzY" =
      .ok ([], none) :=
  ⟨by decide,
    (C17_only_f_Fuzz_calls_contribute (parseAs (entryPointFile "FuzzY" bodyOtherCalls)) []
      "FuzzY" ⟨["x"], "FuzzY"⟩ bodyOtherCalls (by decide)).2.2.1,
    (C17_only_f_Fuzz_calls_contribute (parseAs (entryPointFile "FuzzY" bodyOtherCalls)) []
      "FuzzY" ⟨["x"], "FuzzY"⟩ bodyOtherCalls (by decide)).2.2.2 rfl⟩

/-- C18: on parameter fields whose types are bare named types or sequences of a named
type, `addArgs` succeeds and appends, for each field in order, one copy of the type tag
of the field per declared name of the field, none for a field without a name; the number
of tags added is the total number of declared names; `BodyWalker.Visit` passes it the
fields after the first field of the literal. -/
theorem C18_addArgs_adds_one_tag_per_name (w : BodyWalker) (fields : List Field)
    (htag : ∀ f ∈ fields, (typeTag f.Typ).isSome = true) :
    w.addArgs fields = .ok ⟨w.args ++ nameTags fields, w.fuzzerName⟩ ∧
    (nameTags fields).length = (fields.map fun f => f.Names.length).sum ∧
    ∀ (first : Field) (Results : List Field) (Body : List Stmt) (more : List Expr),
      w.Visit (.Expr (.CallExpr (.SelectorExpr (.Ident "f") "Fuzz")
        (.FuncLit (first :: fields) Results Body :: more))) =
        .ok ⟨w.args ++ nameTags fields, w.fuzzerName⟩ := by
  have hadd := addArgs_of_fieldTags fields w (nameTags fields) (fieldTags_of_tagged fields htag)
  refine ⟨hadd, nameTags_length fields, ?_⟩
  intro first Results Body more
  simp [BodyWalker.Visit, hadd]

/-- Witness of C18: the fields `(a, b int, c []byte, float64)` after a walker that holds
the tag `x`. -/
theorem C18_addArgs_adds_one_tag_per_name_witness :
    (∀ f ∈ fieldsMixed, (typeTag f.Typ).isSome = true) ∧
    nameTags fieldsMixed = ["int", "int", "[]byte"] ∧
    (⟨["x"], "FuzzY"⟩ : BodyWalker).addArgs fieldsMixed =
      .ok ⟨["x"] ++ nameTags fieldsMixed, "FuzzY"⟩ ∧
    (nameTags fieldsMixed).length = (fieldsMixed.map fun f => f.Names.length).sum :=
  ⟨by decide, by decide,
    (C18_addArgs_adds_one_tag_per_name ⟨["x"], "FuzzY"⟩ fieldsMixed (by decide)).1,
    (C18_addArgs_adds_one_tag_per_name ⟨["x"], "FuzzY"⟩ fieldsMixed (by decide)).2.1⟩

/-- C20: for an entry point declared once, with a body, the extracted signature is the
concatenation, in the order of the traversal, of the retained parameter tags of every
`f.Fuzz` call of the body; in particular it is the concatenation of the retained tags of
the calls of a body made of the statements `f.Fuzz(func(...) {})`, and the retained tags
of the one call when there is one. -/
theorem C20_signature_concatenates_every_call (ParseFile : GoString → Except String File)
    (src : GoString) (fuzzerName : String) (f : File) (pre post : List Decl)
    (Recv Params Results : List Field) (body : List Stmt) (tags : List String)
    (hparse : ParseFile src = .ok f)
    (hdecls : f.Decls = pre ++ .FuncDecl Recv fuzzerName Params Results (some body) :: post)
    (hothers : ∀ d ∈ pre ++ post, d.isNamed fuzzerName = false)
    (htags : fuzzTagsStmts body = some tags) :
    getFuzzArgs ParseFile src fuzzerName = .ok (tags, none) ∧
    (∀ calls : List (List Field × List String),
      (∀ call ∈ calls, callTags [.FuncLit call.1 [] []] = some call.2 ∧
        fuzzTagsFields call.1 = some []) →
      body = calls.map (fun call => fuzzCallStmt call.1) →
      tags = calls.flatMap fun call => call.2) ∧
    (∀ (call : List Field) (retained : List String),
      callTags [.FuncLit call [] []] = some retained → fuzzTagsFields call = some [] →
      body = [fuzzCallStmt call] → tags = retained) := by
  refine ⟨getFuzzArgs_of_fuzzTags ParseFile src fuzzerName f pre post Recv Params Results
    body tags hparse hdecls hothers htags, ?_, ?_⟩
  · intro calls hcalls hbody
    rw [hbody, fuzzTagsStmts_calls calls hcalls] at htags
    simp only [Option.some.injEq] at htags
    exact htags.symm
  · intro call retained hcall hfields hbody
    have := fuzzTagsStmts_calls [(call, retained)] (by simp [hcall, hfields])
    simp only [List.map_cons, List.map_nil, List.flatMap_cons, List.flatMap_nil,
      List.append_nil] at this
    rw [hbody, this] at htags
    simp only [Option.some.injEq] at htags
    exact htags.symm

/-- Witness of C20: an entry point `FuzzY` with the two calls
`f.Fuzz(func(t *testing.T, a int) {})` and
`f.Fuzz(func(t *testing.T, b string, c, d bool) {})`. -/
theorem C20_signature_concatenates_every_call_witness :
    parseAs (entryPointFile "FuzzY" bodyTwoFuzzCalls) [] =
      .ok (entryPointFile "FuzzY" bodyTwoFuzzCalls) ∧
    fuzzTagsStmts bodyTwoFuzzCalls = some (["int"] ++ ["string", "bool", "bool"]) ∧
    getFuzzArgs (parseAs (entryPointFile "FuzzY" bodyTwoFuzzCalls)) [] "FuzzY" =
      .ok (["int"] ++ ["string", "bool", "bool"], none) :=
  ⟨rfl, by decide,
    (C20_signature_concatenates_every_call
      (parseAs (entryPointFile "FuzzY" bodyTwoFuzzCalls)) [] "FuzzY"
      (entryPointFile "FuzzY" bodyTwoFuzzCalls) [] []
      [] [.mk ["f"] (.StarExpr (.SelectorExpr (.Ident "testing") "F"))] []
      bodyTwoFuzzCalls (["int"] ++ ["string", "bool", "bool"]) rfl rfl
      (by simp) (by decide)).1⟩


/-! ## The two functions together -/

/-- Whatever signature `getFuzzArgs` returns, `ConvertLibfuzzerSeedToGoSeed` is
`libFuzzerSeedToGoSeed` on the buffer and that signature. -/
theorem Convert_of_getFuzzArgs {σ : Type} (ParseFile : GoString → Except String File)
    (c : Consumer σ) (ff : FloatFmt) (src testCase : List Nat) (fuzzerName : String)
    (args : List String) (e : Option String)
    (h : getFuzzArgs ParseFile src fuzzerName = .ok (args, e)) :
    ConvertLibfuzzerSeedToGoSeed ParseFile c ff src testCase fuzzerName =
      libFuzzerSeedToGoSeed c ff testCase args := by
  have he := getFuzzArgs_error_nil ParseFile src fuzzerName args e h
  subst he
  simp [ConvertLibfuzzerSeedToGoSeed, h]

/-- C11 (the code at the failing input): for the entry point
`func FuzzX(f *testing.F) { f.Fuzz(func(t *testing.T, a []byte, b int, c bool) {}) }`
the extracted signature is `[]byte, int, bool`, and `ConvertLibfuzzerSeedToGoSeed`
returns what `libFuzzerSeedToGoSeed` returns on it.  On the buffer `1 10 7 0`, long
enough for the three parameters, the cursor decodes the one byte 10, the integer 7 and
`false`, and the output is the marker, `[]byte("`, a newline, `")`, `int(7)` and
`bool(false)`: five lines, not four, because the decoded newline is written as it is.
On the buffer `2 'h' 'i' 7 1` the output is the four lines of the scenario. -/
theorem C11_newline_in_bytes_gives_five_lines :
    getFuzzArgs (parseAs (harnessFile paramsNamed)) [] "FuzzX" =
      .ok (["[]byte", "int", "bool"], none) ∧
    (ConvertLibfuzzerSeedToGoSeed (parseAs (harnessFile paramsNamed)) byteCursor
      zeroFloatFmt [] [1, 10, 7, 0] "FuzzX").result =
      (libFuzzerSeedToGoSeed byteCursor zeroFloatFmt [1, 10, 7, 0]
        ["[]byte", "int", "bool"]).result ∧
    byteCursor.GetBytes (byteCursor.NewConsumer [1, 10, 7, 0]) = (.ok [10], [7, 0]) ∧
    byteCursor.GetInt [7, 0] = (.ok 7, [0]) ∧
    byteCursor.GetBool [0] = (.ok false, []) ∧
    (ConvertLibfuzzerSeedToGoSeed (parseAs (harnessFile paramsNamed)) byteCursor
      zeroFloatFmt [] [1, 10, 7, 0] "FuzzX").result =
      .ok (lit "go test fuzz v1\n[]byte(\"\n\")\nint(7)\nbool(false)") ∧
    lineCount (lit "go test fuzz v1\n[]byte(\"\n\")\nint(7)\nbool(false)") = 5 ∧
    (ConvertLibfuzzerSeedToGoSeed (parseAs (harnessFile paramsNamed)) byteCursor
      zeroFloatFmt [] [2, 104, 105, 7, 1] "FuzzX").result =
      .ok (lit "go test fuzz v1\n[]byte(\"hi\")\nint(7)\nbool(true)") ∧
    lineCount (lit "go test fuzz v1\n[]byte(\"hi\")\nint(7)\nbool(true)") = 4 := by
  decide

end Coverage
